import Mathlib

/-!
Shallow embedding of the claude-subagent-generator repository's core logic:
the IPC rate limiter, input validators and error sanitizer of
`src/main/ipcHandlers.js`, the analysis/consultant/markdown pipeline of
`src/renderer/services/agentGenerator.js`, the complexity estimator of
`TemplateProcessor`, and the form state of
`src/renderer/hooks/useAgentGenerator.js`.
JS arrays become `List`, JS strings become `String`/`List Char`, machine
timestamps become `Int`, and thrown exceptions become `Except`.
-/

namespace SubagentGen

/-! ### Rate limiter (`src/main/ipcHandlers.js` lines 24-67) -/

/-- `RATE_LIMIT_WINDOW = 60000` (one minute, in milliseconds). -/
def RATE_LIMIT_WINDOW : Int := 60000

/-- The static per-channel quota table `RATE_LIMITS`; the lookup
`RATE_LIMITS[channel] || 10` defaults to 10 for unlisted channels. -/
def rateLimitFor (channel : String) : Nat :=
  if channel = "save-agent" then 10
  else if channel = "load-agents" then 20
  else if channel = "get-existing-agents" then 20
  else if channel = "process-pdf" then 5
  else if channel = "load-settings" then 30
  else if channel = "save-settings" then 20
  else if channel = "load-template" then 10
  else if channel = "consult-agent" then 30
  else if channel = "get-app-version" then 60
  else 10

/-- One call of `isRateLimited(channel)`: `now` is `Date.now()` and
`requests` is the channel's stored timestamp array.  Returns the boolean
result together with the updated stored array: old entries are filtered
by `now - timestamp < RATE_LIMIT_WINDOW`; if the remaining count reaches
the quota the call is rejected, otherwise `now` is pushed. -/
def isRateLimited (channel : String) (now : Int) (requests : List Int) :
    Bool × List Int :=
  let limit := rateLimitFor channel
  let validRequests := requests.filter (fun t => now - t < RATE_LIMIT_WINDOW)
  if validRequests.length ≥ limit then
    (true, validRequests)
  else
    (false, validRequests ++ [now])

/-! ### Template data model (`useAgentGenerator.js`, `agentGenerator.js`) -/

/-- The flat template object of `useAgentGenerator`: 8 fixed category
names, each holding an array of strings. -/
structure TemplateData where
  coreFunctions : List String
  domainExpertise : List String
  inputTypes : List String
  validationRules : List String
  outputFormat : List String
  performanceConstraints : List String
  styleGuide : List String
  integrationTargets : List String
deriving DecidableEq

/-- A processed PDF document as stored by `addDocument`. -/
structure Document where
  name : String
  path : String
  text : String
  pages : Nat
deriving DecidableEq

/-- The ECMAScript whitespace class (WhiteSpace ∪ LineTerminator), used by
`String.prototype.trim` and by the `\s` regex class. -/
def jsWhitespace (c : Char) : Bool :=
  c = '\t' || c = '\n' || c = '\x0b' || c = '\x0c' || c = '\r' || c = ' ' ||
  c = '\u00A0' || c = '\u1680' || ('\u2000' ≤ c && c ≤ '\u200A') ||
  c = '\u2028' || c = '\u2029' || c = '\u202F' || c = '\u205F' ||
  c = '\u3000' || c = '\uFEFF'

/-- `String.prototype.trim` on the character list: strip leading and
trailing whitespace. -/
def jsTrimChars (l : List Char) : List Char :=
  ((l.dropWhile jsWhitespace).reverse.dropWhile jsWhitespace).reverse

/-- `s.trim()`. -/
def jsTrim (s : String) : String := String.mk (jsTrimChars s.toList)

/-- `s.toLowerCase()` (ASCII case mapping). -/
def jsToLower (s : String) : String := String.mk (s.toList.map Char.toLower)

/-- `Object.values(templateData)` — the 8 category arrays in the fixed
insertion order of the object literal. -/
def TemplateData.values (td : TemplateData) : List (List String) :=
  [td.coreFunctions, td.domainExpertise, td.inputTypes, td.validationRules,
   td.outputFormat, td.performanceConstraints, td.styleGuide,
   td.integrationTargets]

/-- `category.filter(f => f.trim()).length`: the number of entries that
are non-blank (non-empty after trimming). -/
def filledCount (fields : List String) : Nat :=
  (fields.filter (fun f => jsTrim f ≠ "")).length

/-- `Object.values(templateData).reduce((sum, category) => sum +
category.filter(f => f.trim()).length, 0)` — the total number of filled
fields.  `TemplateProcessor` computes the same sum over the same 8
category names with the same non-blank test. -/
def totalFields (td : TemplateData) : Nat :=
  td.values.foldl (fun sum category => sum + filledCount category) 0

/-- The complexity classification of `HeadArchitectAgent.analyzeInputData`
(`agentGenerator.js` lines 76-85). -/
def analyzeComplexity (td : TemplateData) (documents : List Document) : String :=
  if totalFields td > 50 ∨ documents.length > 5 then "complex"
  else if totalFields td > 20 ∨ documents.length > 2 then "moderate"
  else "simple"

/-- `TemplateProcessor.estimateComplexity`: note the middle tier fires at
`totalFields > 15`, not 20. -/
def estimateComplexity (td : TemplateData) (documents : List Document) : String :=
  if totalFields td > 50 ∨ documents.length > 5 then "high"
  else if totalFields td > 15 ∨ documents.length > 2 then "medium"
  else "low"

/-! ### Consultant suggestion (`agentGenerator.js` lines 96-119) -/

/-- Is `pat` a (contiguous) prefix of `s`? -/
def isPrefixChars : List Char → List Char → Bool
  | [], _ => true
  | _ :: _, [] => false
  | p :: ps, c :: cs => p = c && isPrefixChars ps cs

/-- Does `pat` occur contiguously anywhere inside `s`?  This is the JS
`String.prototype.includes` substring test on the underlying characters. -/
def occursIn (pat : List Char) : List Char → Bool
  | [] => isPrefixChars pat []
  | c :: cs => isPrefixChars pat (c :: cs) || occursIn pat cs

/-- `allText.includes(keyword)`. -/
def jsIncludes (s pat : String) : Bool :=
  occursIn pat.toList s.toList

/-- The static keyword table `agentKeywords`, in source order. -/
def agentKeywords : List (String × List String) :=
  [("backend-developer", ["api", "backend", "server", "database", "rest"]),
   ("frontend-developer", ["ui", "frontend", "react", "component", "interface"]),
   ("security-engineer",
     ["security", "authentication", "authorization", "encryption"]),
   ("database-optimizer", ["database", "query", "optimization", "sql"]),
   ("code-reviewer", ["quality", "review", "best practice", "standards"]),
   ("documentation-engineer", ["documentation", "readme", "guide", "manual"]),
   ("test-automator", ["test", "testing", "qa", "validation"]),
   ("performance-engineer",
     ["performance", "optimization", "speed", "efficiency"])]

/-- `Object.values(templateData).flat().join(' ').toLowerCase()`. -/
def allText (td : TemplateData) : String :=
  jsToLower (String.intercalate " " td.values.flatten)

/-- `suggestConsultants`: walk the keyword table in order, pushing the
agent name when some keyword occurs in `allText`, then `slice(0, 3)`. -/
def suggestConsultants (td : TemplateData) : List String :=
  (agentKeywords.foldl
    (fun consultants p =>
      if p.2.any (fun keyword => jsIncludes (allText td) keyword) then
        consultants ++ [p.1]
      else consultants) []).take 3

/-! ### Error sanitizer (`ipcHandlers.js` lines 194-205)

`sanitizeErrorMessage` applies four global regex replacements and a trim:
`/\/[^\s]+/g → '[path]'`, `/[A-Z]:\\[^\s]+/g → '[path]'`,
`/\bat\s+.*$/gm → ''`, `/\(.*?:\d+:\d+\)/g → ''`.  Each pass is embedded
as a single left-to-right scan with the same match semantics. -/

/-- Complement of the `\s` class. -/
def nonWs (c : Char) : Bool := !jsWhitespace c

/-- ECMAScript LineTerminator: excluded by `.` and matched by a multiline
`$`. -/
def isLineTerm (c : Char) : Bool :=
  c = '\n' || c = '\r' || c = '\u2028' || c = '\u2029'

/-- ASCII word character, for the `\b` boundary. -/
def isWordChar (c : Char) : Bool :=
  ('a' ≤ c && c ≤ 'z') || ('A' ≤ c && c ≤ 'Z') || ('0' ≤ c && c ≤ '9') ||
    c = '_'

/-- `[A-Z]`. -/
def isAsciiUpper (c : Char) : Bool := 'A' ≤ c && c ≤ 'Z'

/-- `\d`. -/
def isDigitChar (c : Char) : Bool := '0' ≤ c && c ≤ '9'

/-- The replacement text `[path]`. -/
def pathToken : List Char := ['[', 'p', 'a', 't', 'h', ']']

/-- Does the list start with a non-whitespace character? -/
def headNonWs : List Char → Bool
  | [] => false
  | d :: _ => nonWs d

/-- `message.replace(/\/[^\s]+/g, '[path]')` as one scan.  In the `true`
state the scanner is consuming the greedy `[^\s]+` run of a match just
replaced; in the `false` state it looks for the next `/` followed by a
non-whitespace character. -/
def replaceUnixAux : Bool → List Char → List Char
  | _, [] => []
  | true, c :: rest =>
      if nonWs c then replaceUnixAux true rest
      else c :: replaceUnixAux false rest
  | false, c :: rest =>
      if c = '/' && headNonWs rest then pathToken ++ replaceUnixAux true rest
      else c :: replaceUnixAux false rest

/-- Pass 1 of the sanitizer. -/
def replaceUnix (l : List Char) : List Char := replaceUnixAux false l

/-- `.replace(/[A-Z]:\\[^\s]+/g, '[path]')` as one scan; the `true` state
again consumes the matched `[^\s]+` run. -/
def replaceWinAux : Bool → List Char → List Char
  | _, [] => []
  | true, c :: rest =>
      if nonWs c then replaceWinAux true rest
      else c :: replaceWinAux false rest
  | false, c :: c2 :: c3 :: d :: rest2 =>
      if isAsciiUpper c && c2 = ':' && c3 = '\\' && nonWs d then
        pathToken ++ replaceWinAux true (d :: rest2)
      else c :: replaceWinAux false (c2 :: c3 :: d :: rest2)
  | false, c :: rest => c :: replaceWinAux false rest

/-- Pass 2 of the sanitizer. -/
def replaceWin (l : List Char) : List Char := replaceWinAux false l

/-- Scanner state for `.replace(/\bat\s+.*$/gm, '')`: scanning (tracking
whether the previous character was a word character, for `\b`), deleting
the `\s+` run, or deleting the `.*` run up to the next line terminator. -/
inductive AtState
  | scan (prevWord : Bool)
  | wsRun
  | lineRun

/-- `.replace(/\bat\s+.*$/gm, '')` as one scan.  A match starts at `at`
preceded by a non-word position and followed by whitespace; it consumes
the maximal whitespace run (which may cross line terminators) and then
everything up to the next line terminator. -/
def stripAtAux : AtState → List Char → List Char
  | _, [] => []
  | .wsRun, c :: rest =>
      if jsWhitespace c then stripAtAux .wsRun rest
      else stripAtAux .lineRun rest
  | .lineRun, c :: rest =>
      if isLineTerm c then c :: stripAtAux (.scan false) rest
      else stripAtAux .lineRun rest
  | .scan prevWord, c :: c2 :: c3 :: rest2 =>
      if c = 'a' && c2 = 't' && !prevWord && jsWhitespace c3 then
        stripAtAux .wsRun (c3 :: rest2)
      else c :: stripAtAux (.scan (isWordChar c)) (c2 :: c3 :: rest2)
  | .scan _, c :: rest => c :: stripAtAux (.scan (isWordChar c)) rest

/-- Pass 3 of the sanitizer. -/
def stripAt (l : List Char) : List Char := stripAtAux (.scan false) l

/-- Match `\d+` at the head: require one digit, drop the maximal run. -/
def digitRun : List Char → Option (List Char)
  | [] => none
  | c :: rest =>
      if isDigitChar c then some (rest.dropWhile isDigitChar) else none

/-- Match `:\d+:\d+\)` at the head, returning the remainder.  The greedy
`\d+` with a required literal after it is deterministic: the maximal
digit run must be followed by the literal. -/
def tailMatch (l : List Char) : Option (List Char) :=
  match l with
  | [] => none
  | c :: rest =>
      if c = ':' then
        match digitRun rest with
        | none => none
        | some rest2 =>
          match rest2 with
          | [] => none
          | c2 :: rest3 =>
              if c2 = ':' then
                match digitRun rest3 with
                | none => none
                | some rest4 =>
                  match rest4 with
                  | [] => none
                  | c3 :: rest5 => if c3 = ')' then some rest5 else none
              else none
      else none

/-- The lazy `.*?:\d+:\d+\)` after an opening parenthesis: try the tail
at the shortest extension first, advancing only over non-terminator
characters. -/
def findLazy : List Char → Option (List Char)
  | [] => none
  | c :: rest =>
      match tailMatch (c :: rest) with
      | some r => some r
      | none => if isLineTerm c then none else findLazy rest

/-- `.replace(/\(.*?:\d+:\d+\)/g, '')` as one scan with explicit fuel
(consumed matches jump forward a non-structural amount; any fuel at least
the list length suffices). -/
def removeLineColAux : Nat → List Char → List Char
  | _, [] => []
  | 0, l => l
  | fuel + 1, c :: rest =>
      if c = '(' then
        match findLazy rest with
        | some remainder => removeLineColAux fuel remainder
        | none => c :: removeLineColAux fuel rest
      else c :: removeLineColAux fuel rest

/-- Pass 4 of the sanitizer. -/
def removeLineCol (l : List Char) : List Char := removeLineColAux l.length l

/-- The four replacement passes in source order. -/
def sanitizePasses (l : List Char) : List Char :=
  removeLineCol (stripAt (replaceWin (replaceUnix l)))

/-- `error.message || 'An error occurred'` (an absent or empty message
falls back to the default text). -/
def errMessageText (message : Option String) : String :=
  match message with
  | none => "An error occurred"
  | some s => if s = "" then "An error occurred" else s

/-- `sanitizeErrorMessage(error)`: `error.message || 'An error occurred'`,
the four passes, then `sanitized.trim() || 'An error occurred'`. -/
def sanitizeErrorMessage (message : Option String) : String :=
  let sanitized := jsTrimChars (sanitizePasses (errMessageText message).toList)
  if sanitized = [] then "An error occurred" else String.mk sanitized

/-- Is there a `/`-plus-non-whitespace pair (a Unix-path-like pattern, as
matched by `/\/[^\s]+/`) at the head? -/
def unixPairAt : List Char → Bool
  | c :: d :: _ => c = '/' && nonWs d
  | _ => false

/-- No Unix-path-like pattern at any position. -/
def noUnixPath : List Char → Bool
  | [] => true
  | c :: rest => !unixPairAt (c :: rest) && noUnixPath rest

/-- Is there an uppercase-drive Windows path pattern (as matched by
`/[A-Z]:\\[^\s]+/`) at the head? -/
def winQuadAt : List Char → Bool
  | c :: c2 :: c3 :: d :: _ =>
      isAsciiUpper c && c2 = ':' && c3 = '\\' && nonWs d
  | _ => false

/-- No uppercase-drive Windows path pattern at any position. -/
def noWinPath : List Char → Bool
  | [] => true
  | c :: rest => !winQuadAt (c :: rest) && noWinPath rest

/-! ### Input validators and IPC handlers (`ipcHandlers.js` lines 75-406)

The typed embedding renders the JS `typeof` checks vacuous; absent or
null string inputs are modelled as `""` (which the same guards reject,
since `""` is falsy).  Success payloads are elided from replies. -/

/-- A thrown JS error as seen by a catch block: `message` may be absent. -/
structure JsError where
  message : Option String

/-- The `agentData` argument of the `save-agent` channel. -/
structure AgentData where
  name : String
  content : String

/-- `validators.validateAgentData`. -/
def validateAgentData (agentData : AgentData) : Except String Unit :=
  if agentData.name = "" then
    Except.error "Invalid agent data: name is required and must be a string"
  else if agentData.name.length > 200 then
    Except.error "Invalid agent data: name too long (max 200 characters)"
  else if agentData.content = "" then
    Except.error "Invalid agent data: content is required and must be a string"
  else if agentData.content.length > 1000000 then
    Except.error "Invalid agent data: content too large (max 1MB)"
  else Except.ok ()

/-- The character class `[a-zA-Z0-9-_]`. -/
def agentTypeCharOk (c : Char) : Bool :=
  ('a' ≤ c && c ≤ 'z') || ('A' ≤ c && c ≤ 'Z') || ('0' ≤ c && c ≤ '9') ||
    c = '-' || c = '_'

/-- `validators.validateAgentType`: non-empty, at most 100 characters,
and matching `/^[a-zA-Z0-9-_]+$/`. -/
def validateAgentType (agentType : String) : Except String Unit :=
  if agentType = "" then
    Except.error "Invalid agent type: must be a non-empty string"
  else if agentType.length > 100 then
    Except.error "Invalid agent type: too long (max 100 characters)"
  else if !(agentType.toList.all agentTypeCharOk) then
    Except.error
      "Invalid agent type: only alphanumeric, hyphens, and underscores allowed"
  else Except.ok ()

/-- The inline query guards of the `consult-agent` handler. -/
def validateQuery (query : String) : Except String Unit :=
  if query = "" then
    Except.error "Invalid query: must be a non-empty string"
  else if query.length > 10000 then
    Except.error "Query too long: maximum 10,000 characters allowed"
  else Except.ok ()

/-- The `consult-agent` validation sequence: agent type first, then the
query guards. -/
def validateConsultInputs (agentType query : String) : Except String Unit :=
  match validateAgentType agentType with
  | Except.error e => Except.error e
  | Except.ok () => validateQuery query

/-- The settings object (boolean flags are well-typed by construction, so
only the theme check can fail). -/
structure Settings where
  theme : Option String

/-- `validators.validateSettings`: a present, non-empty theme must be
`light` or `dark`. -/
def validateSettings (settings : Settings) : Except String Unit :=
  match settings.theme with
  | none => Except.ok ()
  | some t =>
      if t ≠ "" && !(t = "light" || t = "dark") then
        Except.error "Invalid settings: theme must be \"light\" or \"dark\""
      else Except.ok ()

/-- The reply object of the eight object-replying handlers (success
payloads elided; the failing `load-settings` reply additionally carries
an empty `settings` object — immaterial to these fields). -/
structure Reply where
  success : Bool
  error : Option String
deriving DecidableEq

/-- The guard-clause skeleton shared verbatim by the eight
object-replying handlers: rate-limit check, then validation (vacuous
`Except.ok ()` where the source handler validates nothing), then the
awaited operation; the catch-all turns any thrown error into
`success: false` with the sanitized message. -/
def guardedHandler (channel : String) (now : Int) (requests : List Int)
    (validation : Except String Unit) (op : Except JsError Unit) : Reply :=
  if (isRateLimited channel now requests).1 then
    { success := false,
      error := some "Rate limit exceeded. Please try again later." }
  else
    match validation with
    | Except.error e =>
        { success := false, error := some (sanitizeErrorMessage (some e)) }
    | Except.ok () =>
        match op with
        | Except.error e2 =>
            { success := false, error := some (sanitizeErrorMessage e2.message) }
        | Except.ok () => { success := true, error := none }

/-- HANDLER `save-agent`. -/
def handleSaveAgent (now : Int) (requests : List Int) (agentData : AgentData)
    (saveOp : Except JsError Unit) : Reply :=
  guardedHandler "save-agent" now requests (validateAgentData agentData) saveOp

/-- HANDLER `load-agents` (no validation step). -/
def handleLoadAgents (now : Int) (requests : List Int)
    (loadOp : Except JsError Unit) : Reply :=
  guardedHandler "load-agents" now requests (Except.ok ()) loadOp

/-- HANDLER `get-existing-agents` (no validation step). -/
def handleGetExistingAgents (now : Int) (requests : List Int)
    (loadOp : Except JsError Unit) : Reply :=
  guardedHandler "get-existing-agents" now requests (Except.ok ()) loadOp

/-- HANDLER `process-pdf`; the outcome of the filesystem-dependent
`validatePdfPath` is a parameter. -/
def handleProcessPdf (now : Int) (requests : List Int)
    (pathValidation : Except String Unit) (parseOp : Except JsError Unit) :
    Reply :=
  guardedHandler "process-pdf" now requests pathValidation parseOp

/-- HANDLER `load-settings` (no validation step). -/
def handleLoadSettings (now : Int) (requests : List Int)
    (loadOp : Except JsError Unit) : Reply :=
  guardedHandler "load-settings" now requests (Except.ok ()) loadOp

/-- HANDLER `save-settings`. -/
def handleSaveSettings (now : Int) (requests : List Int) (settings : Settings)
    (saveOp : Except JsError Unit) : Reply :=
  guardedHandler "save-settings" now requests (validateSettings settings) saveOp

/-- HANDLER `load-template` (no validation step). -/
def handleLoadTemplate (now : Int) (requests : List Int)
    (loadOp : Except JsError Unit) : Reply :=
  guardedHandler "load-template" now requests (Except.ok ()) loadOp

/-- HANDLER `consult-agent`. -/
def handleConsultAgent (now : Int) (requests : List Int)
    (agentType query : String) (consultOp : Except JsError Unit) : Reply :=
  guardedHandler "consult-agent" now requests
    (validateConsultInputs agentType query) consultOp

/-- The `get-app-version` reply: a bare version string on the normal and
fallback paths, or the rate-limit error object. -/
inductive VersionReply
  | errorReply (error : String)
  | version (v : String)
deriving DecidableEq

/-- HANDLER `get-app-version`: rate-limit object, else `app.getVersion()`,
with the literal fallback `'1.0.0'` if that throws. -/
def handleGetAppVersion (now : Int) (requests : List Int)
    (versionOp : Except JsError String) : VersionReply :=
  if (isRateLimited "get-app-version" now requests).1 then
    VersionReply.errorReply "Rate limit exceeded. Please try again later."
  else
    match versionOp with
    | Except.ok v => VersionReply.version v
    | Except.error _ => VersionReply.version "1.0.0"

/-! ### Specification builder (`agentGenerator.js` lines 167-343)

`createSpecification` pushes lines into an array and joins with `'\n'`.
The push sequence is embedded as a concatenation of the guarded groups,
in push order; `genTime` stands for `new Date().toISOString()`. -/

/-- One expert consultation as read by `createSpecification` (`c &&
c.agentType` models a missing or empty `agentType` as `""`). -/
structure Consultation where
  agentType : String
  available : Bool
deriving DecidableEq

/-- `fields.filter(f => f.trim())`. -/
def nonBlank (fields : List String) : List String :=
  fields.filter (fun f => jsTrim f ≠ "")

/-- `fields.some(f => f.trim())`. -/
def hasNonBlank (fields : List String) : Bool :=
  fields.any (fun f => jsTrim f ≠ "")

/-- `forEach((func, i) => push(i+1 + '. ' + func))`. -/
def numberFrom : Nat → List String → List String
  | _, [] => []
  | i, x :: xs => (toString (i + 1) ++ ". " ++ x) :: numberFrom (i + 1) xs

/-- `forEach(entry => push('- ' + entry))`. -/
def dashItems (entries : List String) : List String :=
  entries.map (fun e => "- " ++ e)

/-- One guarded category group: emitted only when the category has a
non-blank entry, as its header lines, its non-blank entries as list
items, and a blank line. -/
def categoryBlock (headers : List String) (fields : List String) :
    List String :=
  if hasNonBlank fields then headers ++ dashItems (nonBlank fields) ++ [""]
  else []

/-- The unconditional header group. -/
def specHeaderLines (agentName agentType complexity genTime : String) :
    List String :=
  ["# Subagent: " ++ agentName, "",
   "**Generated**: " ++ genTime,
   "**Version**: 1.0.0",
   "**Type**: " ++ agentType,
   "**Complexity**: " ++ complexity,
   "", "---", ""]

/-- The overview group with the numbered non-blank core functions. -/
def overviewLines (agentType : String) (td : TemplateData) : List String :=
  ["## Overview",
   "This is a specialized " ++ agentType ++ " subagent designed for:"] ++
  numberFrom 0 (nonBlank td.coreFunctions) ++ [""]

/-- The document group, emitted only when documents were uploaded. -/
def documentsBlock (documents : List Document) : List String :=
  if documents.length > 0 then
    ["## Contextual Documentation", "",
     "This subagent was generated with " ++ toString documents.length ++
       " supporting document(s):"] ++
    documents.map (fun doc =>
      "- **" ++ doc.name ++ "** (" ++ toString doc.pages ++ " pages, " ++
        toString doc.text.length ++ " characters)") ++
    ["", "### Key Insights from Documents",
     "The uploaded documents provide additional context and requirements that should be considered in the implementation.",
     ""]
  else []

/-- The line naming one consultation. -/
def consultationLine (c : Consultation) : String :=
  "- **" ++ c.agentType ++ "**: " ++
    (if c.available then "Provided guidance" else "Not available")

/-- The consultation group: emitted when the list is non-empty, naming
only the consultations whose `agentType` is truthy. -/
def consultationsBlock (consultations : List Consultation) : List String :=
  if consultations.length > 0 then
    ["## Expert Consultations", "",
     "This subagent design was informed by consulting the following expert agents:"] ++
    consultations.filterMap (fun c =>
      if c.agentType ≠ "" then some (consultationLine c) else none) ++
    [""]
  else []

/-- The fixed quality-criteria group. -/
def qualityLines : List String :=
  ["## Quality Criteria", "",
   "This subagent must meet the following quality standards:",
   "- Production-ready code, not proof-of-concept",
   "- Comprehensive error handling with informative messages",
   "- Type hints for all functions where applicable",
   "- Inline documentation for complex logic",
   "- Test coverage for critical functionality",
   "- Idempotent operations where applicable",
   ""]

/-- The usage group. -/
def usageLines (agentType : String) : List String :=
  ["## Usage Instructions", "",
   "This subagent should be used for tasks related to " ++ agentType ++ ".",
   "Import and integrate according to your project structure.",
   ""]

/-- The final footer line stating the complexity tier and the number of
consultations. -/
def footerLine (complexity : String) (consultations : List Consultation) :
    String :=
  "*Head Architect: Complexity " ++ complexity ++ ", " ++
    toString consultations.length ++ " consultations*"

/-- The footer group. -/
def footerLines (complexity : String) (consultations : List Consultation) :
    List String :=
  ["---", "", "*Generated by Claude Subagent Generator v1.0.0*",
   footerLine complexity consultations]

/-- The full push sequence of `createSpecification`, in source order. -/
def createSpecSections (agentName agentType : String) (td : TemplateData)
    (documents : List Document) (complexity : String)
    (consultations : List Consultation) (genTime : String) : List String :=
  specHeaderLines agentName agentType complexity genTime ++
  overviewLines agentType td ++
  ["## Core Specifications", ""] ++
  categoryBlock ["### Primary Functions"] td.coreFunctions ++
  categoryBlock ["### Domain Expertise"] td.domainExpertise ++
  ["## Technical Requirements", ""] ++
  categoryBlock ["### Input Interface", "**Expected inputs:**"] td.inputTypes ++
  categoryBlock ["### Validation Rules"] td.validationRules ++
  categoryBlock ["### Output Contract", "**Return format:**"] td.outputFormat ++
  categoryBlock ["### Performance Constraints"] td.performanceConstraints ++
  categoryBlock ["## Implementation Guidelines", "", "### Code Style"]
    td.styleGuide ++
  categoryBlock ["### Integration Points", "Must interface with:"]
    td.integrationTargets ++
  documentsBlock documents ++
  consultationsBlock consultations ++
  qualityLines ++
  usageLines agentType ++
  footerLines complexity consultations

/-- `sections.join('\n')`. -/
def createSpecification (agentName agentType : String) (td : TemplateData)
    (documents : List Document) (complexity : String)
    (consultations : List Consultation) (genTime : String) : String :=
  String.intercalate "\n"
    (createSpecSections agentName agentType td documents complexity
      consultations genTime)

/-! ### Theorems about complexity classification (C2) -/

/-- A template object with exactly 16 filled fields. -/
def sixteenFieldData : TemplateData :=
  { coreFunctions := List.replicate 12 "x"
    domainExpertise := List.replicate 4 "x" ++ List.replicate 8 ""
    inputTypes := List.replicate 12 ""
    validationRules := List.replicate 12 ""
    outputFormat := List.replicate 12 ""
    performanceConstraints := List.replicate 12 ""
    styleGuide := List.replicate 12 ""
    integrationTargets := List.replicate 12 "" }

/-! ### Form state (`useAgentGenerator.js`) -/

/-- The 8 fixed category names of the template object. -/
inductive Category
  | coreFunctions | domainExpertise | inputTypes | validationRules
  | outputFormat | performanceConstraints | styleGuide | integrationTargets
deriving DecidableEq

/-- Read one category array (`prev[category]`). -/
def TemplateData.get (td : TemplateData) : Category → List String
  | .coreFunctions => td.coreFunctions
  | .domainExpertise => td.domainExpertise
  | .inputTypes => td.inputTypes
  | .validationRules => td.validationRules
  | .outputFormat => td.outputFormat
  | .performanceConstraints => td.performanceConstraints
  | .styleGuide => td.styleGuide
  | .integrationTargets => td.integrationTargets

/-- Write one category array (`{ ...prev, [category]: ... }`). -/
def TemplateData.setCat (td : TemplateData) : Category → List String → TemplateData
  | .coreFunctions, l => { td with coreFunctions := l }
  | .domainExpertise, l => { td with domainExpertise := l }
  | .inputTypes, l => { td with inputTypes := l }
  | .validationRules, l => { td with validationRules := l }
  | .outputFormat, l => { td with outputFormat := l }
  | .performanceConstraints, l => { td with performanceConstraints := l }
  | .styleGuide, l => { td with styleGuide := l }
  | .integrationTargets, l => { td with integrationTargets := l }

/-- `arr.map((item, i) => (i === index ? value : item))`, with `i` the
running position starting at the given offset. -/
def replaceAt (index : Nat) (value : String) : Nat → List String → List String
  | _, [] => []
  | i, item :: rest =>
      (if i = index then value else item) :: replaceAt index value (i + 1) rest

/-- `updateTemplateField(category, index, value)`: positionally replace
inside the one category array, leaving the others untouched. -/
def updateTemplateField (td : TemplateData) (category : Category) (index : Nat)
    (value : String) : TemplateData :=
  td.setCat category (replaceAt index value 0 (td.get category))

/-- The initial template object: 8 categories, each `Array(12).fill('')`.
`resetForm` rebuilds exactly this object. -/
def initialTemplateData : TemplateData :=
  { coreFunctions := List.replicate 12 ""
    domainExpertise := List.replicate 12 ""
    inputTypes := List.replicate 12 ""
    validationRules := List.replicate 12 ""
    outputFormat := List.replicate 12 ""
    performanceConstraints := List.replicate 12 ""
    styleGuide := List.replicate 12 ""
    integrationTargets := List.replicate 12 "" }

/-- The operations of the hook that touch `templateData`. -/
inductive FormOp
  | update (category : Category) (index : Nat) (value : String)
  | reset

/-- Apply one form operation to the template object. -/
def applyFormOp (td : TemplateData) : FormOp → TemplateData
  | .update c i v => updateTemplateField td c i v
  | .reset => initialTemplateData

/-- A dropped file as handed to `addDocument`. -/
structure FileInfo where
  name : String
  path : String

/-- The `process-pdf` reply as consumed by `addDocument`: success carries
the extracted text and page count, failure carries the error string (the
IPC `result.error` or the caught `err.message`). -/
inductive PdfResult
  | ok (text : String) (pages : Nat)
  | fail (error : String)

/-- The slice of hook state that `addDocument` reads and writes. -/
structure GeneratorState where
  documents : List Document
  error : Option String

/-- `addDocument(file)`: refuse at 12 documents; on a successful PDF
reply append the document and clear the error; on failure store the
reported error and leave the list unchanged. -/
def addDocument (st : GeneratorState) (file : FileInfo) (result : PdfResult) :
    GeneratorState :=
  if st.documents.length ≥ 12 then
    { st with error := some "Maximum 12 documents allowed" }
  else
    match result with
    | .ok text pages =>
        { documents := st.documents ++ [⟨file.name, file.path, text, pages⟩]
          error := none }
    | .fail e => { st with error := some e }

/-! ## Theorems -/

/-! ### Theorems about the rate limiter -/

/-- Equation lemma: when the filtered window is under quota the call is
admitted and `now` is pushed. -/
theorem isRateLimited_eq_allow (channel : String) (now : Int) (requests : List Int)
    (h : (requests.filter (fun t => now - t < RATE_LIMIT_WINDOW)).length <
      rateLimitFor channel) :
    isRateLimited channel now requests =
      (false, requests.filter (fun t => now - t < RATE_LIMIT_WINDOW) ++ [now]) := by
  simp only [isRateLimited, ge_iff_le]
  rw [if_neg (by omega)]

/-- Equation lemma: when the filtered window has reached quota the call is
rejected and the store becomes the filtered array. -/
theorem isRateLimited_eq_reject (channel : String) (now : Int) (requests : List Int)
    (h : rateLimitFor channel ≤
      (requests.filter (fun t => now - t < RATE_LIMIT_WINDOW)).length) :
    isRateLimited channel now requests =
      (true, requests.filter (fun t => now - t < RATE_LIMIT_WINDOW)) := by
  simp only [isRateLimited, ge_iff_le]
  rw [if_pos h]

/-- **C1**: a request on a channel is rejected exactly when the number of
stored (previously admitted) timestamps lying within the preceding
60,000 ms window has reached the channel's quota; an admitted request has
its timestamp appended to the window. -/
theorem isRateLimited_iff (channel : String) (now : Int) (requests : List Int) :
    ((isRateLimited channel now requests).1 = true ↔
      rateLimitFor channel ≤
        (requests.filter (fun t => now - t < RATE_LIMIT_WINDOW)).length) ∧
    ((isRateLimited channel now requests).1 = false →
      (isRateLimited channel now requests).2 =
        requests.filter (fun t => now - t < RATE_LIMIT_WINDOW) ++ [now]) := by
  rcases lt_or_ge (requests.filter (fun t => now - t < RATE_LIMIT_WINDOW)).length
      (rateLimitFor channel) with h | h
  · rw [isRateLimited_eq_allow channel now requests h]
    refine ⟨?_, fun _ => rfl⟩
    simp only [Prod.fst]
    constructor
    · intro habs; exact absurd habs (by simp)
    · intro hle; omega
  · rw [isRateLimited_eq_reject channel now requests h]
    exact ⟨by simpa using h, by simp⟩

/-- Witness for `isRateLimited_iff` at the `save-agent` channel with two
stale timestamps and one fresh one. -/
theorem isRateLimited_iff_witness :
    ((isRateLimited "save-agent" 100000 [1000, 2000, 50000]).1 = true ↔
      rateLimitFor "save-agent" ≤
        (([1000, 2000, 50000] : List Int).filter
          (fun t => (100000 : Int) - t < RATE_LIMIT_WINDOW)).length) ∧
    ((isRateLimited "save-agent" 100000 [1000, 2000, 50000]).1 = false →
      (isRateLimited "save-agent" 100000 [1000, 2000, 50000]).2 =
        ([1000, 2000, 50000] : List Int).filter
          (fun t => (100000 : Int) - t < RATE_LIMIT_WINDOW) ++ [100000]) :=
  isRateLimited_iff "save-agent" 100000 [1000, 2000, 50000]

/-- **C9**: provided the stored array respects the quota before the call
(as every reachable state does, starting from the empty array), then after
`isRateLimited` runs the stored array holds only timestamps from the last
60,000 ms, its length is at most the quota, and a rejected call stores
exactly the filtered old array — it appends nothing. -/
theorem isRateLimited_window_invariant (channel : String) (now : Int)
    (requests : List Int) (h : requests.length ≤ rateLimitFor channel) :
    (∀ t ∈ (isRateLimited channel now requests).2, now - t < RATE_LIMIT_WINDOW) ∧
    (isRateLimited channel now requests).2.length ≤ rateLimitFor channel ∧
    ((isRateLimited channel now requests).1 = true →
      (isRateLimited channel now requests).2 =
        requests.filter (fun t => now - t < RATE_LIMIT_WINDOW)) := by
  rcases lt_or_ge (requests.filter (fun t => now - t < RATE_LIMIT_WINDOW)).length
      (rateLimitFor channel) with hlt | hge
  · rw [isRateLimited_eq_allow channel now requests hlt]
    refine ⟨?_, ?_, ?_⟩
    · intro t ht
      rcases List.mem_append.mp ht with hmem | hmem
      · exact of_decide_eq_true (List.mem_filter.mp hmem).2
      · simp only [List.mem_singleton] at hmem
        subst hmem
        simp [RATE_LIMIT_WINDOW]
    · simp only [List.length_append, List.length_singleton]
      omega
    · intro habs
      simp at habs
  · rw [isRateLimited_eq_reject channel now requests hge]
    refine ⟨?_, ?_, fun _ => rfl⟩
    · intro t ht
      exact of_decide_eq_true (List.mem_filter.mp ht).2
    · exact le_trans (List.length_filter_le _ _) h

/-- **C2 counterexample**: 16 filled fields and no documents is at most
20 fields and at most 2 documents, so the claim puts it in the bottom
tier, yet `TemplateProcessor.estimateComplexity` returns `"medium"`
(its middle-tier cutoff is 15, not 20). -/
theorem estimateComplexity_cutoff_counterexample :
    totalFields sixteenFieldData = 16 ∧
    ¬ (20 < totalFields sixteenFieldData) ∧
    estimateComplexity sixteenFieldData [] = "medium" ∧
    estimateComplexity sixteenFieldData [] ≠ "low" := by
  refine ⟨by decide, by decide, by decide, by decide⟩

/-- **C2 amended**: tier selection is purely by numeric cutoffs on the
filled-field count and document count; `analyzeInputData` uses field
cutoffs 20 and 50, while `TemplateProcessor.estimateComplexity` uses
field cutoffs 15 and 50 (document cutoffs 2 and 5 in both). -/
theorem complexity_tier_selection (td : TemplateData) (documents : List Document) :
    (analyzeComplexity td documents = "complex" ↔
      50 < totalFields td ∨ 5 < documents.length) ∧
    (analyzeComplexity td documents = "moderate" ↔
      ¬(50 < totalFields td ∨ 5 < documents.length) ∧
        (20 < totalFields td ∨ 2 < documents.length)) ∧
    (analyzeComplexity td documents = "simple" ↔
      totalFields td ≤ 20 ∧ documents.length ≤ 2) ∧
    (estimateComplexity td documents = "high" ↔
      50 < totalFields td ∨ 5 < documents.length) ∧
    (estimateComplexity td documents = "medium" ↔
      ¬(50 < totalFields td ∨ 5 < documents.length) ∧
        (15 < totalFields td ∨ 2 < documents.length)) ∧
    (estimateComplexity td documents = "low" ↔
      totalFields td ≤ 15 ∧ documents.length ≤ 2) := by
  by_cases h1 : 50 < totalFields td ∨ 5 < documents.length
  · simp [analyzeComplexity, estimateComplexity, h1]
    omega
  · by_cases h2 : 20 < totalFields td ∨ 2 < documents.length
    · by_cases h3 : 15 < totalFields td ∨ 2 < documents.length
      · simp [analyzeComplexity, estimateComplexity, h1, h2, h3]
        omega
      · exact absurd h3 (by omega)
    · by_cases h3 : 15 < totalFields td ∨ 2 < documents.length
      · simp [analyzeComplexity, estimateComplexity, h1, h2, h3]
        omega
      · simp [analyzeComplexity, estimateComplexity, h1, h2, h3]
        omega

/-! ### Theorems about consultant suggestion (C6) -/

/-- Folding pushes in table order exactly the filtered names. -/
theorem foldl_push_eq_filter_map (l : List (String × List String))
    (p : String × List String → Bool) (acc : List String) :
    l.foldl (fun cs q => if p q then cs ++ [q.1] else cs) acc =
      acc ++ (l.filter p).map Prod.fst := by
  induction l generalizing acc with
  | nil => simp
  | cons head tail ih =>
    by_cases hp : p head <;> simp [hp, ih, List.append_assoc]

/-- **C6**: `suggestConsultants` returns exactly the names of the keyword
table entries for which some listed keyword occurs as a substring of the
lowercased space-joined concatenation of all field values, in table
order, truncated to the first 3. -/
theorem suggestConsultants_spec (td : TemplateData) :
    suggestConsultants td =
      ((agentKeywords.filter
        (fun p => p.2.any (fun keyword => jsIncludes (allText td) keyword))).map
          Prod.fst).take 3 := by
  unfold suggestConsultants
  rw [foldl_push_eq_filter_map]
  simp

/-! ### Theorems about the form state (C5, C10) -/

/-- `replaceAt` never changes the length. -/
theorem replaceAt_length (index : Nat) (value : String) (n : Nat) (l : List String) :
    (replaceAt index value n l).length = l.length := by
  induction l generalizing n with
  | nil => rfl
  | cons item rest ih => simp [replaceAt, ih]

/-- `replaceAt` from offset `n` is `List.set` at `index - n` (and the
identity when the index lies before the offset). -/
theorem replaceAt_eq_set (index : Nat) (value : String) (n : Nat) (l : List String) :
    (n ≤ index → replaceAt index value n l = l.set (index - n) value) ∧
    (index < n → replaceAt index value n l = l) := by
  induction l generalizing n with
  | nil => simp [replaceAt]
  | cons item rest ih =>
    constructor
    · intro hle
      rcases eq_or_lt_of_le hle with heq | hlt
      · subst heq
        simp [replaceAt, Nat.sub_self, (ih (n + 1)).2 (by omega)]
      · have h1 : replaceAt index value (n + 1) rest =
            rest.set (index - (n + 1)) value := (ih (n + 1)).1 (by omega)
        have h2 : index - n = (index - (n + 1)) + 1 := by omega
        simp [replaceAt, Nat.ne_of_lt hlt, hlt.ne', h1, h2]
    · intro hlt
      have h1 : replaceAt index value (n + 1) rest = rest := (ih (n + 1)).2 (by omega)
      simp [replaceAt, Nat.ne_of_lt hlt, (Nat.ne_of_lt hlt).symm, h1]

/-- Per-operation length preservation, used along any operation sequence. -/
theorem applyFormOp_length (td : TemplateData) (op : FormOp)
    (h : ∀ c, (td.get c).length = 12) (c : Category) :
    ((applyFormOp td op).get c).length = 12 := by
  cases op with
  | update cat idx v =>
    cases cat <;> cases c <;>
      simp [applyFormOp, updateTemplateField, TemplateData.get, TemplateData.setCat,
        replaceAt_length] <;>
      first
        | exact h Category.coreFunctions
        | exact h Category.domainExpertise
        | exact h Category.inputTypes
        | exact h Category.validationRules
        | exact h Category.outputFormat
        | exact h Category.performanceConstraints
        | exact h Category.styleGuide
        | exact h Category.integrationTargets
  | reset => cases c <;> rfl

/-- Every operation sequence started on arrays of length 12 keeps every
array at length 12. -/
theorem foldl_formOps_length (ops : List FormOp) (td : TemplateData)
    (h : ∀ c, (td.get c).length = 12) (c : Category) :
    ((ops.foldl applyFormOp td).get c).length = 12 := by
  induction ops generalizing td with
  | nil => exact h c
  | cons op rest ih =>
    exact ih (applyFormOp td op) (fun c2 => applyFormOp_length td op h c2)

/-- **C5**: each category is a 12-element array at initialization;
`updateTemplateField` replaces positionally inside the named category
without changing any array's length and leaves the other categories
untouched; `resetForm` restores all 8 arrays to 12 empty strings; and
along any sequence of these operations every array keeps length 12. -/
theorem templateArrays_always_length12 :
    (∀ c, initialTemplateData.get c = List.replicate 12 "") ∧
    (∀ td c idx v,
      (updateTemplateField td c idx v).get c = (td.get c).set idx v) ∧
    (∀ td c idx v c2,
      ((updateTemplateField td c idx v).get c2).length = (td.get c2).length) ∧
    (∀ td c idx v c2, c2 ≠ c →
      (updateTemplateField td c idx v).get c2 = td.get c2) ∧
    (∀ (ops : List FormOp) (c : Category),
      ((ops.foldl applyFormOp initialTemplateData).get c).length = 12) := by
  refine ⟨?_, ?_, ?_, ?_, ?_⟩
  · intro c; cases c <;> rfl
  · intro td c idx v
    have := (replaceAt_eq_set idx v 0 (td.get c)).1 (Nat.zero_le idx)
    cases c <;>
      simpa [updateTemplateField, TemplateData.get, TemplateData.setCat] using this
  · intro td c idx v c2
    cases c <;> cases c2 <;>
      simp [updateTemplateField, TemplateData.get, TemplateData.setCat,
        replaceAt_length]
  · intro td c idx v c2 hne
    cases c <;> cases c2 <;> first | exact absurd rfl hne | rfl
  · intro ops c
    exact foldl_formOps_length ops initialTemplateData
      (fun c2 => by cases c2 <;> rfl) c

/-- Witness for `templateArrays_always_length12`: a concrete update on one
category leaves a different category untouched, and a concrete operation
sequence keeps length 12. -/
theorem templateArrays_always_length12_witness :
    (updateTemplateField initialTemplateData Category.coreFunctions 3 "v").get
        Category.domainExpertise =
      initialTemplateData.get Category.domainExpertise ∧
    (([FormOp.update Category.styleGuide 2 "y", FormOp.reset,
       FormOp.update Category.inputTypes 11 "z"].foldl applyFormOp
        initialTemplateData).get Category.inputTypes).length = 12 :=
  ⟨templateArrays_always_length12.2.2.2.1 initialTemplateData
      Category.coreFunctions 3 "v" Category.domainExpertise (by decide),
   templateArrays_always_length12.2.2.2.2
      [FormOp.update Category.styleGuide 2 "y", FormOp.reset,
       FormOp.update Category.inputTypes 11 "z"] Category.inputTypes⟩

/-- **C10**: the documents list never exceeds 12 entries: with 12 present
the call refuses with the error `Maximum 12 documents allowed` and leaves
the list unchanged; a failed PDF reply stores the reported error and
leaves the list unchanged; a document is appended only on success. -/
theorem addDocument_invariant (st : GeneratorState) (file : FileInfo)
    (r : PdfResult) (h : st.documents.length ≤ 12) :
    (addDocument st file r).documents.length ≤ 12 ∧
    (st.documents.length = 12 →
      (addDocument st file r).documents = st.documents ∧
      (addDocument st file r).error = some "Maximum 12 documents allowed") ∧
    (∀ e, r = PdfResult.fail e → st.documents.length < 12 →
      (addDocument st file r).documents = st.documents ∧
      (addDocument st file r).error = some e) ∧
    (∀ text pages, r = PdfResult.ok text pages → st.documents.length < 12 →
      (addDocument st file r).documents =
        st.documents ++ [⟨file.name, file.path, text, pages⟩] ∧
      (addDocument st file r).error = none) := by
  by_cases hfull : st.documents.length ≥ 12
  · have h12 : st.documents.length = 12 := le_antisymm h hfull
    refine ⟨?_, fun _ => ?_, ?_, ?_⟩
    · simp [addDocument, hfull, h12]
    · simp [addDocument, hfull]
    · intro e _ hlt; omega
    · intro text pages _ hlt; omega
  · have hlt : st.documents.length < 12 := lt_of_not_ge hfull
    refine ⟨?_, fun h12 => absurd h12 (by omega), ?_, ?_⟩
    · cases r with
      | ok text pages =>
        simp only [addDocument, if_neg hfull, List.length_append,
          List.length_singleton]
        omega
      | fail e => simpa [addDocument, hfull] using h
    · intro e hr _
      subst hr
      simp [addDocument, hfull]
    · intro text pages hr _
      subst hr
      simp [addDocument, hfull]

/-- Witness for `addDocument_invariant`: a successful reply on an empty
state appends the one document and clears the error. -/
theorem addDocument_invariant_witness :
    (addDocument ⟨[], none⟩ ⟨"a.pdf", "/tmp/a.pdf"⟩
        (PdfResult.ok "hello" 2)).documents.length ≤ 12 ∧
    ((⟨[], none⟩ : GeneratorState).documents.length = 12 →
      (addDocument ⟨[], none⟩ ⟨"a.pdf", "/tmp/a.pdf"⟩
          (PdfResult.ok "hello" 2)).documents = [] ∧
      (addDocument ⟨[], none⟩ ⟨"a.pdf", "/tmp/a.pdf"⟩
          (PdfResult.ok "hello" 2)).error =
        some "Maximum 12 documents allowed") ∧
    (∀ e, PdfResult.ok "hello" 2 = PdfResult.fail e →
      ([] : List Document).length < 12 →
      (addDocument ⟨[], none⟩ ⟨"a.pdf", "/tmp/a.pdf"⟩
          (PdfResult.ok "hello" 2)).documents = [] ∧
      (addDocument ⟨[], none⟩ ⟨"a.pdf", "/tmp/a.pdf"⟩
          (PdfResult.ok "hello" 2)).error = some e) ∧
    (∀ text pages, PdfResult.ok "hello" 2 = PdfResult.ok text pages →
      ([] : List Document).length < 12 →
      (addDocument ⟨[], none⟩ ⟨"a.pdf", "/tmp/a.pdf"⟩
          (PdfResult.ok "hello" 2)).documents =
        [] ++ [⟨"a.pdf", "/tmp/a.pdf", text, pages⟩] ∧
      (addDocument ⟨[], none⟩ ⟨"a.pdf", "/tmp/a.pdf"⟩
          (PdfResult.ok "hello" 2)).error = none) :=
  addDocument_invariant ⟨[], none⟩ ⟨"a.pdf", "/tmp/a.pdf"⟩
    (PdfResult.ok "hello" 2) (by decide)

/-- Witness for `isRateLimited_window_invariant` on the `process-pdf`
channel (quota 5) with three stored timestamps, one of them stale. -/
theorem isRateLimited_window_invariant_witness :
    (∀ t ∈ (isRateLimited "process-pdf" 70000 [5000, 20000, 65000]).2,
        (70000 : Int) - t < RATE_LIMIT_WINDOW) ∧
    (isRateLimited "process-pdf" 70000 [5000, 20000, 65000]).2.length ≤
      rateLimitFor "process-pdf" ∧
    ((isRateLimited "process-pdf" 70000 [5000, 20000, 65000]).1 = true →
      (isRateLimited "process-pdf" 70000 [5000, 20000, 65000]).2 =
        ([5000, 20000, 65000] : List Int).filter
          (fun t => (70000 : Int) - t < RATE_LIMIT_WINDOW)) :=
  isRateLimited_window_invariant "process-pdf" 70000 [5000, 20000, 65000]
    (by decide)

/-! ### Theorems about the IPC handlers (C4, C7) -/

/-- In the rate-limited case every guarded handler returns the fixed
rejection object. -/
theorem guardedHandler_rateLimited (channel : String) (now : Int)
    (requests : List Int) (validation : Except String Unit)
    (op : Except JsError Unit)
    (h : (isRateLimited channel now requests).1 = true) :
    guardedHandler channel now requests validation op =
      { success := false,
        error := some "Rate limit exceeded. Please try again later." } := by
  simp [guardedHandler, h]

/-- A failed validation yields the sanitized thrown message. -/
theorem guardedHandler_validationError (channel : String) (now : Int)
    (requests : List Int) (validation : Except String Unit)
    (op : Except JsError Unit) (e : String)
    (hrl : (isRateLimited channel now requests).1 = false)
    (hv : validation = Except.error e) :
    guardedHandler channel now requests validation op =
      { success := false, error := some (sanitizeErrorMessage (some e)) } := by
  subst hv
  simp [guardedHandler, hrl]

/-- A thrown operation yields the sanitized error message. -/
theorem guardedHandler_opError (channel : String) (now : Int)
    (requests : List Int) (validation : Except String Unit)
    (op : Except JsError Unit) (e2 : JsError)
    (hrl : (isRateLimited channel now requests).1 = false)
    (hv : validation = Except.ok ()) (hop : op = Except.error e2) :
    guardedHandler channel now requests validation op =
      { success := false, error := some (sanitizeErrorMessage e2.message) } := by
  subst hv; subst hop
  simp [guardedHandler, hrl]

/-- Whenever a guarded handler does not succeed, its reply carries an
error string — there is no third outcome and nothing escapes. -/
theorem guardedHandler_fail_closed (channel : String) (now : Int)
    (requests : List Int) (validation : Except String Unit)
    (op : Except JsError Unit)
    (h : (guardedHandler channel now requests validation op).success = false) :
    ∃ s, (guardedHandler channel now requests validation op).error = some s := by
  unfold guardedHandler at *
  by_cases hrl : (isRateLimited channel now requests).1
  · simp [hrl]
  · cases validation with
    | error e => simp [hrl]
    | ok u =>
      cases op with
      | error e2 => simp [hrl]
      | ok u2 => simp [hrl] at h

/-- A validation failure forces `success: false` whether or not the call
was also rate limited. -/
theorem guardedHandler_valError_success_false (channel : String) (now : Int)
    (requests : List Int) (validation : Except String Unit)
    (op : Except JsError Unit) (e : String)
    (hv : validation = Except.error e) :
    (guardedHandler channel now requests validation op).success = false := by
  subst hv
  unfold guardedHandler
  by_cases hrl : (isRateLimited channel now requests).1 <;> simp [hrl]

/-- `validateAgentData` succeeds exactly on a non-empty name of at most
200 characters with non-empty content of at most 1,000,000 characters. -/
theorem validateAgentData_ok_iff (agentData : AgentData) :
    validateAgentData agentData = Except.ok () ↔
      agentData.name ≠ "" ∧ agentData.name.length ≤ 200 ∧
        agentData.content ≠ "" ∧ agentData.content.length ≤ 1000000 := by
  unfold validateAgentData
  split_ifs with h1 h2 h3 h4
  · simp [h1]
  · simp only [reduceCtorEq, false_iff]
    rintro ⟨-, hlen, -, -⟩
    omega
  · simp [h3]
  · simp only [reduceCtorEq, false_iff]
    rintro ⟨-, -, -, hlen⟩
    omega
  · simp only [true_iff]
    refine ⟨h1, by omega, h3, by omega⟩

/-- `validateAgentType` succeeds exactly on a non-empty string of at most
100 characters drawn from `[a-zA-Z0-9-_]`. -/
theorem validateAgentType_ok_iff (agentType : String) :
    validateAgentType agentType = Except.ok () ↔
      agentType ≠ "" ∧ agentType.length ≤ 100 ∧
        ∀ c ∈ agentType.toList, agentTypeCharOk c = true := by
  unfold validateAgentType
  split_ifs with h1 h2 h3
  · simp [h1]
  · simp only [reduceCtorEq, false_iff]
    rintro ⟨-, hlen, -⟩
    omega
  · simp only [Bool.not_eq_true', List.all_eq_false] at h3
    simp only [reduceCtorEq, false_iff]
    rintro ⟨-, -, hall⟩
    rcases h3 with ⟨c, hc, hfalse⟩
    exact absurd (hall c hc) (by simp [hfalse])
  · simp only [Bool.not_eq_true', Bool.not_eq_false, List.all_eq_true] at h3
    simp only [true_iff]
    exact ⟨h1, by omega, h3⟩

/-- The query guards succeed exactly on a non-empty query of at most
10,000 characters. -/
theorem validateQuery_ok_iff (query : String) :
    validateQuery query = Except.ok () ↔
      query ≠ "" ∧ query.length ≤ 10000 := by
  unfold validateQuery
  split_ifs with h1 h2
  · simp [h1]
  · simp only [reduceCtorEq, false_iff]
    rintro ⟨-, hlen⟩
    omega
  · simp only [true_iff]
    exact ⟨h1, by omega⟩

/-- The `consult-agent` validation sequence succeeds exactly when both
its validators do. -/
theorem validateConsultInputs_ok_iff (agentType query : String) :
    validateConsultInputs agentType query = Except.ok () ↔
      validateAgentType agentType = Except.ok () ∧
        validateQuery query = Except.ok () := by
  unfold validateConsultInputs
  cases hv : validateAgentType agentType with
  | error e => simp [hv]
  | ok u => cases u; simp

/-- **C4**: on every failure path — rate-limit rejection, validation
failure, or a thrown operation — the handlers reject by returning
`success: false` with a string `error` field, never throwing and never
retrying; any non-success reply of each of the eight object-replying
handlers carries an error string; and `get-app-version` instead returns
the fallback string `1.0.0` when its operation throws. -/
theorem ipc_handlers_fail_closed :
    (∀ (channel : String) (now : Int) (requests : List Int)
        (validation : Except String Unit) (op : Except JsError Unit),
      ((isRateLimited channel now requests).1 = true →
        guardedHandler channel now requests validation op =
          { success := false,
            error := some "Rate limit exceeded. Please try again later." }) ∧
      (∀ e, (isRateLimited channel now requests).1 = false →
        validation = Except.error e →
        guardedHandler channel now requests validation op =
          { success := false,
            error := some (sanitizeErrorMessage (some e)) }) ∧
      (∀ e2, (isRateLimited channel now requests).1 = false →
        validation = Except.ok () → op = Except.error e2 →
        guardedHandler channel now requests validation op =
          { success := false,
            error := some (sanitizeErrorMessage e2.message) })) ∧
    (∀ now requests agentData saveOp,
      (handleSaveAgent now requests agentData saveOp).success = false →
      ∃ s, (handleSaveAgent now requests agentData saveOp).error = some s) ∧
    (∀ now requests loadOp,
      (handleLoadAgents now requests loadOp).success = false →
      ∃ s, (handleLoadAgents now requests loadOp).error = some s) ∧
    (∀ now requests loadOp,
      (handleGetExistingAgents now requests loadOp).success = false →
      ∃ s, (handleGetExistingAgents now requests loadOp).error = some s) ∧
    (∀ now requests pathValidation parseOp,
      (handleProcessPdf now requests pathValidation parseOp).success = false →
      ∃ s, (handleProcessPdf now requests pathValidation parseOp).error = some s) ∧
    (∀ now requests loadOp,
      (handleLoadSettings now requests loadOp).success = false →
      ∃ s, (handleLoadSettings now requests loadOp).error = some s) ∧
    (∀ now requests settings saveOp,
      (handleSaveSettings now requests settings saveOp).success = false →
      ∃ s, (handleSaveSettings now requests settings saveOp).error = some s) ∧
    (∀ now requests loadOp,
      (handleLoadTemplate now requests loadOp).success = false →
      ∃ s, (handleLoadTemplate now requests loadOp).error = some s) ∧
    (∀ now requests agentType query consultOp,
      (handleConsultAgent now requests agentType query consultOp).success =
        false →
      ∃ s,
        (handleConsultAgent now requests agentType query consultOp).error =
          some s) ∧
    (∀ now requests versionOp,
      ((isRateLimited "get-app-version" now requests).1 = true →
        handleGetAppVersion now requests versionOp =
          VersionReply.errorReply
            "Rate limit exceeded. Please try again later.") ∧
      (∀ e2, (isRateLimited "get-app-version" now requests).1 = false →
        versionOp = Except.error e2 →
        handleGetAppVersion now requests versionOp =
          VersionReply.version "1.0.0")) := by
  refine ⟨?_, ?_, ?_, ?_, ?_, ?_, ?_, ?_, ?_, ?_⟩
  · intro channel now requests validation op
    exact ⟨guardedHandler_rateLimited channel now requests validation op,
      fun e hrl hv =>
        guardedHandler_validationError channel now requests validation op e hrl hv,
      fun e2 hrl hv hop =>
        guardedHandler_opError channel now requests validation op e2 hrl hv hop⟩
  · intro now requests agentData saveOp
    exact guardedHandler_fail_closed _ _ _ _ _
  · intro now requests loadOp
    exact guardedHandler_fail_closed _ _ _ _ _
  · intro now requests loadOp
    exact guardedHandler_fail_closed _ _ _ _ _
  · intro now requests pathValidation parseOp
    exact guardedHandler_fail_closed _ _ _ _ _
  · intro now requests loadOp
    exact guardedHandler_fail_closed _ _ _ _ _
  · intro now requests settings saveOp
    exact guardedHandler_fail_closed _ _ _ _ _
  · intro now requests loadOp
    exact guardedHandler_fail_closed _ _ _ _ _
  · intro now requests agentType query consultOp
    exact guardedHandler_fail_closed _ _ _ _ _
  · intro now requests versionOp
    constructor
    · intro hrl
      simp [handleGetAppVersion, hrl]
    · intro e2 hrl hop
      subst hop
      simp [handleGetAppVersion, hrl]

/-- Witness for `ipc_handlers_fail_closed`: a rate-limited `save-agent`
call returns the rejection object, and `get-app-version` falls back to
`1.0.0` when `app.getVersion()` throws. -/
theorem ipc_handlers_fail_closed_witness :
    guardedHandler "save-agent" 0 (List.replicate 10 0)
        (Except.error "boom") (Except.ok ()) =
      { success := false,
        error := some "Rate limit exceeded. Please try again later." } ∧
    handleGetAppVersion 0 [] (Except.error ⟨none⟩) =
      VersionReply.version "1.0.0" :=
  ⟨(ipc_handlers_fail_closed.1 "save-agent" 0 (List.replicate 10 0)
      (Except.error "boom") (Except.ok ())).1 (by decide),
   (ipc_handlers_fail_closed.2.2.2.2.2.2.2.2.2 0 [] (Except.error ⟨none⟩)).2
      ⟨none⟩ (by decide) rfl⟩

/-- **C7**: the length checks hold at the IPC boundary: `save-agent`
rejects a name over 200 characters or content over 1,000,000 characters;
`consult-agent` rejects an agent type over 100 characters or containing a
character outside `[a-zA-Z0-9-_]`, and a query over 10,000 characters;
non-empty inputs within these bounds pass the corresponding validators. -/
theorem ipc_length_checks :
    (∀ (now : Int) (requests : List Int) (agentData : AgentData)
        (saveOp : Except JsError Unit), 200 < agentData.name.length →
      (handleSaveAgent now requests agentData saveOp).success = false) ∧
    (∀ (now : Int) (requests : List Int) (agentData : AgentData)
        (saveOp : Except JsError Unit), 1000000 < agentData.content.length →
      (handleSaveAgent now requests agentData saveOp).success = false) ∧
    (∀ (now : Int) (requests : List Int) (agentType query : String)
        (consultOp : Except JsError Unit), 100 < agentType.length →
      (handleConsultAgent now requests agentType query consultOp).success =
        false) ∧
    (∀ (now : Int) (requests : List Int) (agentType query : String)
        (consultOp : Except JsError Unit),
      (∃ c ∈ agentType.toList, agentTypeCharOk c = false) →
      (handleConsultAgent now requests agentType query consultOp).success =
        false) ∧
    (∀ (now : Int) (requests : List Int) (agentType query : String)
        (consultOp : Except JsError Unit), 10000 < query.length →
      (handleConsultAgent now requests agentType query consultOp).success =
        false) ∧
    (∀ agentData : AgentData, agentData.name ≠ "" →
      agentData.name.length ≤ 200 → agentData.content ≠ "" →
      agentData.content.length ≤ 1000000 →
      validateAgentData agentData = Except.ok ()) ∧
    (∀ agentType query : String, agentType ≠ "" → agentType.length ≤ 100 →
      (∀ c ∈ agentType.toList, agentTypeCharOk c = true) → query ≠ "" →
      query.length ≤ 10000 →
      validateConsultInputs agentType query = Except.ok ()) := by
  have hval : ∀ (channel : String) (now : Int) (requests : List Int)
      (validation : Except String Unit) (op : Except JsError Unit),
      validation ≠ Except.ok () →
      (guardedHandler channel now requests validation op).success = false := by
    intro channel now requests validation op hne
    cases validation with
    | error e =>
      exact guardedHandler_valError_success_false channel now requests _ op e rfl
    | ok u => cases u; exact absurd rfl hne
  refine ⟨?_, ?_, ?_, ?_, ?_, ?_, ?_⟩
  · intro now requests agentData saveOp hlen
    refine hval _ _ _ _ _ ?_
    intro hok
    have := (validateAgentData_ok_iff agentData).mp hok
    omega
  · intro now requests agentData saveOp hlen
    refine hval _ _ _ _ _ ?_
    intro hok
    have := (validateAgentData_ok_iff agentData).mp hok
    omega
  · intro now requests agentType query consultOp hlen
    refine hval _ _ _ _ _ ?_
    intro hok
    have := ((validateConsultInputs_ok_iff agentType query).mp hok).1
    have := (validateAgentType_ok_iff agentType).mp this
    omega
  · intro now requests agentType query consultOp hbad
    refine hval _ _ _ _ _ ?_
    intro hok
    have h1 := ((validateConsultInputs_ok_iff agentType query).mp hok).1
    have h2 := ((validateAgentType_ok_iff agentType).mp h1).2.2
    rcases hbad with ⟨c, hc, hfalse⟩
    exact absurd (h2 c hc) (by simp [hfalse])
  · intro now requests agentType query consultOp hlen
    refine hval _ _ _ _ _ ?_
    intro hok
    have := ((validateConsultInputs_ok_iff agentType query).mp hok).2
    have := (validateQuery_ok_iff query).mp this
    omega
  · intro agentData h1 h2 h3 h4
    exact (validateAgentData_ok_iff agentData).mpr ⟨h1, h2, h3, h4⟩
  · intro agentType query h1 h2 h3 h4 h5
    exact (validateConsultInputs_ok_iff agentType query).mpr
      ⟨(validateAgentType_ok_iff agentType).mpr ⟨h1, h2, h3⟩,
       (validateQuery_ok_iff query).mpr ⟨h4, h5⟩⟩

set_option maxRecDepth 4000 in
/-- Witness for `ipc_length_checks`: a 201-character name is rejected and
the concrete in-bounds inputs pass validation. -/
theorem ipc_length_checks_witness :
    (handleSaveAgent 0 [] ⟨String.mk (List.replicate 201 'a'), "body"⟩
      (Except.ok ())).success = false ∧
    validateAgentData ⟨"my-agent", "content"⟩ = Except.ok () ∧
    validateConsultInputs "code-reviewer" "How do I test this?" =
      Except.ok () :=
  ⟨ipc_length_checks.1 0 [] ⟨String.mk (List.replicate 201 'a'), "body"⟩
      (Except.ok ()) (by decide),
   ipc_length_checks.2.2.2.2.2.1 ⟨"my-agent", "content"⟩ (by decide)
      (by decide) (by decide) (by decide),
   ipc_length_checks.2.2.2.2.2.2 "code-reviewer" "How do I test this?"
      (by decide) (by decide) (by decide) (by decide) (by decide)⟩

/-! ### Theorems about the specification builder (C8) -/

/-- `String.intercalate.go` only ever appends to its accumulator. -/
theorem intercalate_go_append (s : String) :
    ∀ (tail : List String) (acc : String),
      ∃ r, String.intercalate.go acc s tail = acc ++ r := by
  intro tail
  induction tail with
  | nil =>
    intro acc
    exact ⟨"", by simp [String.intercalate.go]⟩
  | cons a as ih =>
    intro acc
    obtain ⟨r, hr⟩ := ih (acc ++ s ++ a)
    refine ⟨s ++ a ++ r, ?_⟩
    rw [String.intercalate.go, hr]
    simp [String.append_assoc]

/-- `String.intercalate.go` on a list ending in `x` ends in `x`. -/
theorem intercalate_go_last (s x : String) :
    ∀ (l : List String) (acc : String),
      ∃ pre, String.intercalate.go acc s (l ++ [x]) = pre ++ x := by
  intro l
  induction l with
  | nil =>
    intro acc
    exact ⟨acc ++ s, by simp [String.intercalate.go]⟩
  | cons b bs ih =>
    intro acc
    simpa [String.intercalate.go] using ih (acc ++ s ++ b)

/-- A joined list starts with its first element. -/
theorem intercalate_cons_startsWith (s h : String) (t : List String) :
    ∃ r, String.intercalate s (h :: t) = h ++ r := by
  rw [String.intercalate]
  exact intercalate_go_append s t h

/-- A joined non-empty list ending in `x` ends with `x`. -/
theorem intercalate_endsWith (s x : String) (l : List String) (hl : l ≠ []) :
    ∃ pre, String.intercalate s (l ++ [x]) = pre ++ x := by
  cases l with
  | nil => exact absurd rfl hl
  | cons h t =>
    rw [List.cons_append, String.intercalate]
    exact intercalate_go_last s x t h

/-- The `.some(...)` guard agrees with the `.filter(...)` being
non-empty. -/
theorem categoryBlock_eq_filter (headers fields : List String) :
    categoryBlock headers fields =
      if nonBlank fields = [] then []
      else headers ++ dashItems (nonBlank fields) ++ [""] := by
  unfold categoryBlock hasNonBlank nonBlank
  have hiff : fields.filter (fun f => jsTrim f ≠ "") = [] ↔
      ¬ fields.any (fun f => jsTrim f ≠ "") = true := by
    rw [List.filter_eq_nil_iff]
    simp [List.any_eq_true]
  by_cases h : fields.any (fun f => jsTrim f ≠ "") = true
  · rw [if_pos h, if_neg (fun hc => (hiff.mp hc) h)]
  · rw [if_neg h, if_pos (hiff.mpr h)]

/-- Splitting the footer group around its final line. -/
theorem footer_decomp (prefixLines : List String) (complexity : String)
    (consultations : List Consultation) :
    prefixLines ++ footerLines complexity consultations =
      (prefixLines ++
        ["---", "", "*Generated by Claude Subagent Generator v1.0.0*"]) ++
      [footerLine complexity consultations] := by
  simp [footerLines, List.append_assoc]

/-- **C8 counterexample**: with the non-empty consultation list containing
one consultation whose `agentType` is empty, the Expert Consultations
section is emitted but that consultation is not named — its line is
absent from the output — so "naming each consultation's agentType" fails
as stated. -/
theorem createSpecification_unnamed_consultation_counterexample :
    ("## Expert Consultations" ∈ createSpecSections "A" "tester"
      initialTemplateData [] "simple" [⟨"", false⟩] "T") ∧
    (consultationLine ⟨"", false⟩ ∉ createSpecSections "A" "tester"
      initialTemplateData [] "simple" [⟨"", false⟩] "T") ∧
    ([(⟨"", false⟩ : Consultation)] ≠ ([] : List Consultation)) := by
  refine ⟨by decide, by decide, by decide⟩

/-- **C8 amended**: the generated markdown is the `'\n'`-join of the push
sequence; it begins with `# Subagent: ` followed by the agent name; each
category group is emitted exactly when the category has a non-blank entry
and then lists the non-blank entries as `- ` items under the category's
headers; the Expert Consultations group is emitted whenever the
consultation list is non-empty and names each consultation whose
`agentType` is non-empty; and the string ends with the footer line
stating the complexity tier and the number of consultations. -/
theorem createSpecification_structure (agentName agentType : String)
    (td : TemplateData) (documents : List Document) (complexity : String)
    (consultations : List Consultation) (genTime : String) :
    createSpecification agentName agentType td documents complexity
        consultations genTime =
      String.intercalate "\n" (createSpecSections agentName agentType td
        documents complexity consultations genTime) ∧
    (∃ rest, createSpecification agentName agentType td documents complexity
        consultations genTime = ("# Subagent: " ++ agentName) ++ rest) ∧
    (∀ headers fields, categoryBlock headers fields =
      if nonBlank fields = [] then []
      else headers ++ dashItems (nonBlank fields) ++ [""]) ∧
    (consultations ≠ [] → consultationsBlock consultations =
      ["## Expert Consultations", "",
       "This subagent design was informed by consulting the following expert agents:"] ++
      consultations.filterMap (fun c =>
        if c.agentType ≠ "" then some (consultationLine c) else none) ++
      [""]) ∧
    (consultations = [] → consultationsBlock consultations = []) ∧
    (∃ pre, createSpecification agentName agentType td documents complexity
        consultations genTime = pre ++ footerLine complexity consultations) := by
  refine ⟨rfl, ?_, ?_, ?_, ?_, ?_⟩
  · unfold createSpecification createSpecSections specHeaderLines
    simp only [List.cons_append]
    exact intercalate_cons_startsWith "\n" _ _
  · exact categoryBlock_eq_filter
  · intro hne
    cases consultations with
    | nil => exact absurd rfl hne
    | cons c cs => simp [consultationsBlock]
  · intro hnil
    subst hnil
    rfl
  · unfold createSpecification createSpecSections
    rw [footer_decomp]
    exact intercalate_endsWith "\n" _ _ (by simp)

/-- Witness for `createSpecification_structure`: the consultation group is
emitted for a concrete one-element list, and the concrete specification
begins with its agent name. -/
theorem createSpecification_structure_witness :
    consultationsBlock [⟨"code-reviewer", true⟩] =
      ["## Expert Consultations", "",
       "This subagent design was informed by consulting the following expert agents:"] ++
      ([(⟨"code-reviewer", true⟩ : Consultation)].filterMap (fun c =>
        if c.agentType ≠ "" then some (consultationLine c) else none)) ++
      [""] ∧
    (∃ rest, createSpecification "A" "tester" initialTemplateData [] "simple"
      [⟨"code-reviewer", true⟩] "T" = ("# Subagent: " ++ "A") ++ rest) :=
  ⟨(createSpecification_structure "A" "tester" initialTemplateData [] "simple"
      [⟨"code-reviewer", true⟩] "T").2.2.2.1 (by decide),
   (createSpecification_structure "A" "tester" initialTemplateData [] "simple"
      [⟨"code-reviewer", true⟩] "T").2.1⟩

/-! ### Theorems about the error sanitizer (C3) -/

/-- A whitespace character is not a slash. -/
theorem ws_ne_slash (c : Char) (h : nonWs c = false) : c ≠ '/' := by
  intro hc
  subst hc
  simp [nonWs, jsWhitespace] at h

/-- No Unix pair starts at a non-slash character. -/
theorem unixPairAt_false_of_ne (c : Char) (rest : List Char) (hc : c ≠ '/') :
    unixPairAt (c :: rest) = false := by
  cases rest <;> simp [unixPairAt, hc]

/-- Unfolding `noUnixPath` at a cons cell. -/
theorem noUnixPath_cons (c : Char) (rest : List Char) :
    noUnixPath (c :: rest) = (!unixPairAt (c :: rest) && noUnixPath rest) := by
  simp [noUnixPath]

/-- `[path]` never glues a Unix pair onto a clean tail. -/
theorem noUnixPath_pathToken_append (x : List Char)
    (hx : noUnixPath x = true) : noUnixPath (pathToken ++ x) = true := by
  simp only [pathToken, List.cons_append, List.nil_append]
  rw [noUnixPath_cons, noUnixPath_cons, noUnixPath_cons, noUnixPath_cons,
    noUnixPath_cons, noUnixPath_cons]
  rw [unixPairAt_false_of_ne '[' _ (by decide),
    unixPairAt_false_of_ne 'p' _ (by decide),
    unixPairAt_false_of_ne 'a' _ (by decide),
    unixPairAt_false_of_ne 't' _ (by decide),
    unixPairAt_false_of_ne 'h' _ (by decide),
    unixPairAt_false_of_ne ']' _ (by decide), hx]
  rfl

/-- Pass 1 leaves no Unix pair, from either scanner state. -/
theorem replaceUnixAux_noUnixPath (l : List Char) :
    noUnixPath (replaceUnixAux false l) = true ∧
    noUnixPath (replaceUnixAux true l) = true := by
  induction l with
  | nil => exact ⟨rfl, rfl⟩
  | cons c rest ih =>
    constructor
    · by_cases hc : (c = '/' && headNonWs rest) = true
      · rw [show replaceUnixAux false (c :: rest) =
            pathToken ++ replaceUnixAux true rest from by
          simp [replaceUnixAux, hc]]
        exact noUnixPath_pathToken_append _ ih.2
      · have hemitc : replaceUnixAux false (c :: rest) =
            c :: replaceUnixAux false rest := by
          simp only [replaceUnixAux]
          rw [if_neg (by simpa using hc)]
        rw [hemitc, noUnixPath_cons]
        by_cases hcc : c = '/'
        · subst hcc
          have hnws : headNonWs rest = false := by
            cases h : headNonWs rest
            · rfl
            · exact absurd (by simp [h]) hc
          cases rest with
          | nil => simp [replaceUnixAux, unixPairAt, noUnixPath]
          | cons w rest2 =>
            have hw : nonWs w = false := by simpa [headNonWs] using hnws
            have hemit : replaceUnixAux false (w :: rest2) =
                w :: replaceUnixAux false rest2 := by
              simp only [replaceUnixAux]
              rw [if_neg]
              simp [ws_ne_slash w hw]
            rw [hemit]
            have hpair : unixPairAt ('/' :: w :: replaceUnixAux false rest2) =
                false := by
              simp [unixPairAt, hw]
            rw [hpair]
            have htail := ih.1
            rw [hemit] at htail
            rw [htail]
            rfl
        · rw [unixPairAt_false_of_ne c _ hcc, ih.1]
          rfl
    · by_cases hnw : nonWs c = true
      · rw [show replaceUnixAux true (c :: rest) = replaceUnixAux true rest
            from by simp [replaceUnixAux, hnw]]
        exact ih.2
      · rw [show replaceUnixAux true (c :: rest) =
            c :: replaceUnixAux false rest from by
          simp [replaceUnixAux, hnw]]
        rw [noUnixPath_cons,
          unixPairAt_false_of_ne c _ (ws_ne_slash c (by simpa using hnw)),
          ih.1]
        rfl

/-- An uppercase ASCII letter is never ECMAScript whitespace. -/
theorem ws_not_upper (c : Char) (h : jsWhitespace c = true) :
    isAsciiUpper c = false := by
  simp only [jsWhitespace, Bool.or_eq_true, decide_eq_true_eq,
    Bool.and_eq_true] at h
  rcases h with
    ((((((((((((((h|h)|h)|h)|h)|h)|h)|h)|⟨h1,h2⟩)|h)|h)|h)|h)|h)|h)
  all_goals first
    | (subst h; decide)
    | (have hz : 'Z' < c := lt_of_lt_of_le (by decide) h1
       simp only [isAsciiUpper, Bool.and_eq_false_iff]
       right
       simpa using not_le.mpr hz)

/-- A whitespace character (in the `nonWs = false` sense) is not
uppercase. -/
theorem nonWs_false_not_upper (c : Char) (h : nonWs c = false) :
    isAsciiUpper c = false :=
  ws_not_upper c (by simpa [nonWs] using h)

/-- Unfolding `noWinPath` at a cons cell. -/
theorem noWinPath_cons (c : Char) (rest : List Char) :
    noWinPath (c :: rest) = (!winQuadAt (c :: rest) && noWinPath rest) := by
  simp [noWinPath]

/-- No Windows quad starts at a non-uppercase character. -/
theorem winQuadAt_false_of_notUpper (c : Char) (rest : List Char)
    (hc : isAsciiUpper c = false) : winQuadAt (c :: rest) = false := by
  rcases rest with _ | ⟨c2, _ | ⟨c3, _ | ⟨d, rest2⟩⟩⟩ <;> simp [winQuadAt, hc]

/-- No Windows quad when the second character is not a colon. -/
theorem winQuadAt_false_of_second (c c2 : Char) (rest : List Char)
    (h : c2 ≠ ':') : winQuadAt (c :: c2 :: rest) = false := by
  rcases rest with _ | ⟨c3, _ | ⟨d, rest2⟩⟩ <;> simp [winQuadAt, h]

/-- No Windows quad when the third character is not a backslash. -/
theorem winQuadAt_false_of_third (c c2 c3 : Char) (rest : List Char)
    (h : c3 ≠ '\\') : winQuadAt (c :: c2 :: c3 :: rest) = false := by
  rcases rest with _ | ⟨d, rest2⟩ <;> simp [winQuadAt, h]

/-- No Windows quad when the fourth character is whitespace. -/
theorem winQuadAt_false_of_fourth (c c2 c3 d : Char) (rest : List Char)
    (h : nonWs d = false) : winQuadAt (c :: c2 :: c3 :: d :: rest) = false := by
  simp [winQuadAt, h]

/-- `[path]` never glues a Windows quad onto a clean tail. -/
theorem noWinPath_pathToken_append (x : List Char)
    (hx : noWinPath x = true) : noWinPath (pathToken ++ x) = true := by
  simp only [pathToken, List.cons_append, List.nil_append]
  rw [noWinPath_cons, noWinPath_cons, noWinPath_cons, noWinPath_cons,
    noWinPath_cons, noWinPath_cons]
  rw [winQuadAt_false_of_notUpper '[' _ (by decide),
    winQuadAt_false_of_notUpper 'p' _ (by decide),
    winQuadAt_false_of_notUpper 'a' _ (by decide),
    winQuadAt_false_of_notUpper 't' _ (by decide),
    winQuadAt_false_of_notUpper 'h' _ (by decide),
    winQuadAt_false_of_notUpper ']' _ (by decide), hx]
  rfl

/-- Pass 2 emits the scanned character unchanged when it is not an
uppercase letter. -/
theorem replaceWinAux_false_emit_notUpper (c : Char) (rest : List Char)
    (hc : isAsciiUpper c = false) :
    replaceWinAux false (c :: rest) = c :: replaceWinAux false rest := by
  rcases rest with _ | ⟨c2, _ | ⟨c3, _ | ⟨d, rest2⟩⟩⟩ <;>
    simp [replaceWinAux, hc]

/-- The output of pass 2 on a cons starts with the same character or with
the replacement token. -/
theorem replaceWinAux_false_head (x : Char) (m : List Char) :
    (∃ t, replaceWinAux false (x :: m) = x :: t) ∨
    (∃ t, replaceWinAux false (x :: m) = '[' :: t) := by
  rcases m with _ | ⟨c2, _ | ⟨c3, _ | ⟨d, rest2⟩⟩⟩
  · exact Or.inl ⟨_, rfl⟩
  · exact Or.inl ⟨_, rfl⟩
  · exact Or.inl ⟨_, rfl⟩
  · by_cases hcond :
      (isAsciiUpper x && c2 = ':' && c3 = '\\' && nonWs d) = true
    · refine Or.inr ⟨'p' :: 'a' :: 't' :: 'h' :: ']' ::
        replaceWinAux true (d :: rest2), ?_⟩
      simp [replaceWinAux, hcond, pathToken]
    · refine Or.inl ⟨replaceWinAux false (c2 :: c3 :: d :: rest2), ?_⟩
      simp only [replaceWinAux]
      rw [if_neg (by simpa using hcond)]

/-- Pass 2 leaves no uppercase-drive Windows quad, from either state
(length-bounded form). -/
theorem replaceWinAux_noWinPath_aux :
    ∀ (n : Nat) (l : List Char), l.length ≤ n →
      noWinPath (replaceWinAux false l) = true ∧
      noWinPath (replaceWinAux true l) = true := by
  intro n
  induction n with
  | zero =>
    intro l hl
    have hnil : l = [] := List.eq_nil_of_length_eq_zero (Nat.le_zero.mp hl)
    subst hnil
    exact ⟨rfl, rfl⟩
  | succ n ih =>
    intro l hl
    cases l with
    | nil => exact ⟨rfl, rfl⟩
    | cons c rest =>
      have hrl : rest.length ≤ n := by simp at hl; omega
      constructor
      · rcases rest with _ | ⟨c2, _ | ⟨c3, _ | ⟨d, rest2⟩⟩⟩
        · simp [replaceWinAux, noWinPath, winQuadAt]
        · simp [replaceWinAux, noWinPath, winQuadAt]
        · simp [replaceWinAux, noWinPath, winQuadAt]
        · by_cases hcond :
            (isAsciiUpper c && c2 = ':' && c3 = '\\' && nonWs d) = true
          · rw [show replaceWinAux false (c :: c2 :: c3 :: d :: rest2) =
                pathToken ++ replaceWinAux true (d :: rest2) from by
              simp [replaceWinAux, hcond]]
            refine noWinPath_pathToken_append _ ?_
            exact (ih (d :: rest2) (by simp at hl ⊢; omega)).2
          · rw [show replaceWinAux false (c :: c2 :: c3 :: d :: rest2) =
                c :: replaceWinAux false (c2 :: c3 :: d :: rest2) from by
              simp only [replaceWinAux]
              rw [if_neg (by simpa using hcond)]]
            rw [noWinPath_cons]
            have htail :
                noWinPath (replaceWinAux false (c2 :: c3 :: d :: rest2)) =
                  true :=
              (ih (c2 :: c3 :: d :: rest2) (by simp at hl ⊢; omega)).1
            have hquad :
                winQuadAt
                  (c :: replaceWinAux false (c2 :: c3 :: d :: rest2)) =
                  false := by
              by_cases hup : isAsciiUpper c = true
              · by_cases h2 : c2 = ':'
                · by_cases h3 : c3 = '\\'
                  · have hd : nonWs d = false := by
                      rcases Bool.eq_false_or_eq_true (nonWs d) with h | h
                      · exact absurd (by simp [hup, h2, h3, h]) hcond
                      · exact h
                    subst h2; subst h3
                    rw [replaceWinAux_false_emit_notUpper ':' _ (by decide),
                      replaceWinAux_false_emit_notUpper '\\' _ (by decide),
                      replaceWinAux_false_emit_notUpper d _
                        (nonWs_false_not_upper d hd)]
                    exact winQuadAt_false_of_fourth c ':' '\\' d _ hd
                  · subst h2
                    rw [replaceWinAux_false_emit_notUpper ':' _ (by decide)]
                    rcases replaceWinAux_false_head c3 (d :: rest2) with
                      ⟨t, ht⟩ | ⟨t, ht⟩
                    · rw [ht]; exact winQuadAt_false_of_third c ':' c3 _ h3
                    · rw [ht]
                      exact winQuadAt_false_of_third c ':' '[' _ (by decide)
                · rcases replaceWinAux_false_head c2 (c3 :: d :: rest2) with
                    ⟨t, ht⟩ | ⟨t, ht⟩
                  · rw [ht]; exact winQuadAt_false_of_second c c2 _ h2
                  · rw [ht]
                    exact winQuadAt_false_of_second c '[' _ (by decide)
              · exact winQuadAt_false_of_notUpper c _ (by simpa using hup)
            rw [hquad, htail]
            rfl
      · by_cases hnw : nonWs c = true
        · rw [show replaceWinAux true (c :: rest) = replaceWinAux true rest
              from by simp [replaceWinAux, hnw]]
          exact (ih rest hrl).2
        · rw [show replaceWinAux true (c :: rest) =
              c :: replaceWinAux false rest from by
            simp [replaceWinAux, hnw]]
          rw [noWinPath_cons,
            winQuadAt_false_of_notUpper c _
              (nonWs_false_not_upper c (by simpa using hnw)),
            (ih rest hrl).1]
          rfl

/-- Pass 2 output never contains an uppercase-drive Windows path
pattern. -/
theorem replaceWin_noWinPath (l : List Char) :
    noWinPath (replaceWin l) = true :=
  (replaceWinAux_noWinPath_aux l.length l le_rfl).1

/-- `noUnixPath` peels off the head character. -/
theorem noUnixPath_tail (c : Char) (rest : List Char)
    (h : noUnixPath (c :: rest) = true) : noUnixPath rest = true := by
  rw [noUnixPath_cons, Bool.and_eq_true] at h
  exact h.2

/-- A clean list has no pair at its head. -/
theorem noUnixPath_head (c : Char) (rest : List Char)
    (h : noUnixPath (c :: rest) = true) : unixPairAt (c :: rest) = false := by
  rw [noUnixPath_cons, Bool.and_eq_true] at h
  simpa using h.1

/-- Pass 2 preserves the absence of Unix pairs, from either state
(length-bounded form). -/
theorem replaceWinAux_noUnixPath_aux :
    ∀ (n : Nat) (l : List Char), l.length ≤ n → noUnixPath l = true →
      noUnixPath (replaceWinAux false l) = true ∧
      noUnixPath (replaceWinAux true l) = true := by
  intro n
  induction n with
  | zero =>
    intro l hl _
    have hnil : l = [] := List.eq_nil_of_length_eq_zero (Nat.le_zero.mp hl)
    subst hnil
    exact ⟨rfl, rfl⟩
  | succ n ih =>
    intro l hl hclean
    cases l with
    | nil => exact ⟨rfl, rfl⟩
    | cons c rest =>
      have hrl : rest.length ≤ n := by simp at hl; omega
      have hcrest : noUnixPath rest = true := noUnixPath_tail c rest hclean
      constructor
      · rcases rest with _ | ⟨c2, _ | ⟨c3, _ | ⟨d, rest2⟩⟩⟩
        · simpa [replaceWinAux] using hclean
        · simpa [replaceWinAux] using hclean
        · simpa [replaceWinAux] using hclean
        · by_cases hcond :
            (isAsciiUpper c && c2 = ':' && c3 = '\\' && nonWs d) = true
          · rw [show replaceWinAux false (c :: c2 :: c3 :: d :: rest2) =
                pathToken ++ replaceWinAux true (d :: rest2) from by
              simp [replaceWinAux, hcond]]
            refine noUnixPath_pathToken_append _ ?_
            have hd3 : noUnixPath (d :: rest2) = true :=
              noUnixPath_tail _ _ (noUnixPath_tail _ _
                (noUnixPath_tail _ _ hclean))
            exact (ih (d :: rest2) (by simp at hl ⊢; omega) hd3).2
          · rw [show replaceWinAux false (c :: c2 :: c3 :: d :: rest2) =
                c :: replaceWinAux false (c2 :: c3 :: d :: rest2) from by
              simp only [replaceWinAux]
              rw [if_neg (by simpa using hcond)]]
            rw [noUnixPath_cons]
            have htail :=
              (ih (c2 :: c3 :: d :: rest2) (by simp at hl ⊢; omega) hcrest).1
            have hpair :
                unixPairAt
                  (c :: replaceWinAux false (c2 :: c3 :: d :: rest2)) =
                  false := by
              by_cases hcc : c = '/'
              · subst hcc
                have hc2 : nonWs c2 = false := by
                  have := noUnixPath_head '/' _ hclean
                  simpa [unixPairAt] using this
                rw [replaceWinAux_false_emit_notUpper c2 _
                  (nonWs_false_not_upper c2 hc2)]
                simp [unixPairAt, hc2]
              · exact unixPairAt_false_of_ne c _ hcc
            rw [hpair, htail]
            rfl
      · by_cases hnw : nonWs c = true
        · rw [show replaceWinAux true (c :: rest) = replaceWinAux true rest
              from by simp [replaceWinAux, hnw]]
          exact (ih rest hrl hcrest).2
        · rw [show replaceWinAux true (c :: rest) =
              c :: replaceWinAux false rest from by
            simp [replaceWinAux, hnw]]
          rw [noUnixPath_cons,
            unixPairAt_false_of_ne c _ (ws_ne_slash c (by simpa using hnw)),
            (ih rest hrl hcrest).1]
          rfl

/-- Whitespace characters differ from any non-whitespace character. -/
theorem ws_ne_char (c x : Char) (h : jsWhitespace c = true)
    (hx : jsWhitespace x = false) : c ≠ x := by
  intro he
  subst he
  rw [h] at hx
  exact absurd hx (by decide)

/-- `nonWs` is the negation of `jsWhitespace`. -/
theorem nonWs_false_ws (c : Char) (h : nonWs c = false) :
    jsWhitespace c = true := by
  simpa [nonWs] using h

/-- A line terminator is whitespace. -/
theorem lineTerm_ws (c : Char) (h : isLineTerm c = true) :
    jsWhitespace c = true := by
  simp only [isLineTerm, Bool.or_eq_true, decide_eq_true_eq] at h
  rcases h with ((h|h)|h)|h <;> (subst h; decide)

/-- A line terminator is not a slash. -/
theorem lineTerm_ne_slash (c : Char) (h : isLineTerm c = true) : c ≠ '/' :=
  ws_ne_char c '/' (lineTerm_ws c h) (by decide)

/-- Pass 3 in the scanning state emits any character other than `a`
unchanged. -/
theorem stripAtAux_scan_emit (w : Bool) (x : Char) (m : List Char)
    (hx : x ≠ 'a') :
    stripAtAux (.scan w) (x :: m) =
      x :: stripAtAux (.scan (isWordChar x)) m := by
  rcases m with _ | ⟨c2, _ | ⟨c3, rest2⟩⟩ <;> simp [stripAtAux, hx]

/-- Pass 3 preserves the absence of Unix pairs in every scanner state
(length-bounded form). -/
theorem stripAtAux_noUnixPath_aux :
    ∀ (n : Nat) (l : List Char), l.length ≤ n → noUnixPath l = true →
      (∀ w, noUnixPath (stripAtAux (.scan w) l) = true) ∧
      noUnixPath (stripAtAux .wsRun l) = true ∧
      noUnixPath (stripAtAux .lineRun l) = true := by
  intro n
  induction n with
  | zero =>
    intro l hl _
    have hnil : l = [] := List.eq_nil_of_length_eq_zero (Nat.le_zero.mp hl)
    subst hnil
    exact ⟨fun _ => rfl, rfl, rfl⟩
  | succ n ih =>
    intro l hl hclean
    cases l with
    | nil => exact ⟨fun _ => rfl, rfl, rfl⟩
    | cons c rest =>
      have hrl : rest.length ≤ n := by simp at hl; omega
      have hcrest : noUnixPath rest = true := noUnixPath_tail c rest hclean
      refine ⟨?_, ?_, ?_⟩
      · intro w
        rcases rest with _ | ⟨c2, _ | ⟨c3, rest2⟩⟩
        · simpa [stripAtAux] using hclean
        · simpa [stripAtAux] using hclean
        · by_cases hcond :
            (c = 'a' && c2 = 't' && !w && jsWhitespace c3) = true
          · rw [show stripAtAux (.scan w) (c :: c2 :: c3 :: rest2) =
                stripAtAux .wsRun (c3 :: rest2) from by
              simp [stripAtAux, hcond]]
            have h2 : noUnixPath (c3 :: rest2) = true :=
              noUnixPath_tail _ _ (noUnixPath_tail _ _ hclean)
            exact (ih (c3 :: rest2) (by simp at hl ⊢; omega) h2).2.1
          · rw [show stripAtAux (.scan w) (c :: c2 :: c3 :: rest2) =
                c :: stripAtAux (.scan (isWordChar c)) (c2 :: c3 :: rest2)
                from by
              simp only [stripAtAux]
              rw [if_neg (by simpa using hcond)]]
            rw [noUnixPath_cons]
            have htail :=
              ((ih (c2 :: c3 :: rest2) (by simp at hl ⊢; omega) hcrest).1
                (isWordChar c))
            have hpair :
                unixPairAt (c :: stripAtAux (.scan (isWordChar c))
                  (c2 :: c3 :: rest2)) = false := by
              by_cases hcc : c = '/'
              · subst hcc
                have hc2 : nonWs c2 = false := by
                  have := noUnixPath_head '/' _ hclean
                  simpa [unixPairAt] using this
                rw [stripAtAux_scan_emit (isWordChar '/') c2 _
                  (ws_ne_char c2 'a' (nonWs_false_ws c2 hc2) (by decide))]
                simp [unixPairAt, hc2]
              · exact unixPairAt_false_of_ne c _ hcc
            rw [hpair, htail]
            rfl
      · by_cases hws : jsWhitespace c = true
        · rw [show stripAtAux .wsRun (c :: rest) = stripAtAux .wsRun rest
              from by simp [stripAtAux, hws]]
          exact (ih rest hrl hcrest).2.1
        · rw [show stripAtAux .wsRun (c :: rest) = stripAtAux .lineRun rest
              from by simp [stripAtAux, hws]]
          exact (ih rest hrl hcrest).2.2
      · by_cases hlt : isLineTerm c = true
        · rw [show stripAtAux .lineRun (c :: rest) =
              c :: stripAtAux (.scan false) rest from by
            simp [stripAtAux, hlt]]
          rw [noUnixPath_cons,
            unixPairAt_false_of_ne c _ (lineTerm_ne_slash c hlt),
            (ih rest hrl hcrest).1 false]
          rfl
        · rw [show stripAtAux .lineRun (c :: rest) = stripAtAux .lineRun rest
              from by simp [stripAtAux, hlt]]
          exact (ih rest hrl hcrest).2.2

/-- Pass 3 preserves the absence of Unix pairs. -/
theorem stripAt_noUnixPath (l : List Char) (h : noUnixPath l = true) :
    noUnixPath (stripAt l) = true :=
  (stripAtAux_noUnixPath_aux l.length l le_rfl h).1 false

/-- `noUnixPath` is closed under suffixes. -/
theorem noUnixPath_of_suffix (l l' : List Char) (hs : l' <:+ l)
    (h : noUnixPath l = true) : noUnixPath l' = true := by
  induction l with
  | nil =>
    rw [List.suffix_nil.mp hs]
    rfl
  | cons c rest ih =>
    rcases List.suffix_cons_iff.mp hs with heq | hsf
    · subst heq; exact h
    · exact ih hsf (noUnixPath_tail _ _ h)

/-- `digitRun` returns a strict suffix. -/
theorem digitRun_suffix (m r : List Char) (h : digitRun m = some r) :
    r <:+ m ∧ r.length < m.length := by
  cases m with
  | nil => simp [digitRun] at h
  | cons c m' =>
    by_cases hd : isDigitChar c = true
    · simp only [digitRun, if_pos hd, Option.some.injEq] at h
      subst h
      refine ⟨(List.dropWhile_suffix _).trans (List.suffix_cons c m'), ?_⟩
      have := (List.dropWhile_suffix (l := m') isDigitChar).length_le
      simp
      omega
    · simp [digitRun, hd] at h

/-- `tailMatch` returns a strict suffix. -/
theorem tailMatch_suffix (l r : List Char) (h : tailMatch l = some r) :
    r <:+ l ∧ r.length < l.length := by
  cases l with
  | nil => simp [tailMatch] at h
  | cons c rest =>
    by_cases hc : c = ':'
    case neg => simp [tailMatch, hc] at h
    case pos =>
      subst hc
      simp only [tailMatch, if_pos rfl] at h
      cases hdr : digitRun rest with
      | none => rw [hdr] at h; simp at h
      | some rest2 =>
        rw [hdr] at h
        cases rest2 with
        | nil => simp at h
        | cons c2 rest3 =>
          by_cases hc2 : c2 = ':'
          case neg => simp [hc2] at h
          case pos =>
            subst hc2
            simp only [if_pos rfl] at h
            cases hdr2 : digitRun rest3 with
            | none => rw [hdr2] at h; simp at h
            | some rest4 =>
              rw [hdr2] at h
              cases rest4 with
              | nil => simp at h
              | cons c3 rest5 =>
                by_cases hc3 : c3 = ')'
                case neg => simp [hc3] at h
                case pos =>
                  subst hc3
                  simp at h
                  subst h
                  obtain ⟨s1, l1⟩ := digitRun_suffix rest _ hdr
                  obtain ⟨s2, l2⟩ := digitRun_suffix rest3 _ hdr2
                  have s3 : rest5 <:+ ')' :: rest5 := List.suffix_cons ')' rest5
                  have s4 : rest3 <:+ ':' :: rest3 := List.suffix_cons ':' rest3
                  have hsuf : rest5 <:+ ':' :: rest :=
                    ((s3.trans s2).trans (s4.trans s1)).trans
                      (List.suffix_cons ':' rest)
                  refine ⟨hsuf, ?_⟩
                  have h3 := (s3.trans s2).length_le
                  have h4 := (s4.trans s1).length_le
                  simp at h3 h4 ⊢
                  omega

/-- `findLazy` returns a strict suffix. -/
theorem findLazy_suffix :
    ∀ (l r : List Char), findLazy l = some r → r <:+ l ∧ r.length < l.length := by
  intro l
  induction l with
  | nil =>
    intro r h
    simp [findLazy] at h
  | cons c rest ih =>
    intro r h
    rw [findLazy] at h
    cases htm : tailMatch (c :: rest) with
    | some r' =>
      rw [htm] at h
      simp only [Option.some.injEq] at h
      subst h
      exact tailMatch_suffix _ _ htm
    | none =>
      rw [htm] at h
      by_cases hlt : isLineTerm c = true
      · simp [hlt] at h
      · simp only [hlt, Bool.false_eq_true, if_false, if_neg] at h
        have hres := ih r h
        refine ⟨hres.1.trans (List.suffix_cons c rest), ?_⟩
        have := hres.2
        simp
        omega

/-- Pass 4 emits any character other than `(` unchanged. -/
theorem removeLineColAux_emit (fuel : Nat) (x : Char) (m : List Char)
    (hx : x ≠ '(') :
    removeLineColAux (fuel + 1) (x :: m) = x :: removeLineColAux fuel m := by
  simp [removeLineColAux, hx]

/-- Pass 4 preserves the absence of Unix pairs when given enough fuel. -/
theorem removeLineColAux_noUnixPath :
    ∀ (fuel : Nat) (l : List Char), l.length ≤ fuel → noUnixPath l = true →
      noUnixPath (removeLineColAux fuel l) = true := by
  intro fuel
  induction fuel with
  | zero =>
    intro l hl _
    have hnil : l = [] := List.eq_nil_of_length_eq_zero (Nat.le_zero.mp hl)
    subst hnil
    rfl
  | succ n ih =>
    intro l hl hclean
    cases l with
    | nil => rfl
    | cons c rest =>
      have hrl : rest.length ≤ n := by simp at hl; omega
      have hcrest := noUnixPath_tail c rest hclean
      by_cases hc : c = '('
      · subst hc
        cases hfl : findLazy rest with
        | some remainder =>
          rw [show removeLineColAux (n + 1) ('(' :: rest) =
              removeLineColAux n remainder from by
            simp [removeLineColAux, hfl]]
          obtain ⟨hs, hlen⟩ := findLazy_suffix rest remainder hfl
          exact ih remainder (by omega)
            (noUnixPath_of_suffix rest remainder hs hcrest)
        | none =>
          rw [show removeLineColAux (n + 1) ('(' :: rest) =
              '(' :: removeLineColAux n rest from by
            simp [removeLineColAux, hfl]]
          rw [noUnixPath_cons,
            unixPairAt_false_of_ne '(' _ (by decide),
            ih rest hrl hcrest]
          rfl
      · rw [removeLineColAux_emit n c rest hc, noUnixPath_cons]
        have hpair : unixPairAt (c :: removeLineColAux n rest) = false := by
          by_cases hcc : c = '/'
          · subst hcc
            cases rest with
            | nil =>
              rw [show removeLineColAux n ([] : List Char) = [] from by
                cases n <;> rfl]
              rfl
            | cons w rest2 =>
              have hw : nonWs w = false := by
                have := noUnixPath_head '/' _ hclean
                simpa [unixPairAt] using this
              cases n with
              | zero => exfalso; simp at hl
              | succ n2 =>
                rw [removeLineColAux_emit n2 w rest2
                  (ws_ne_char w '(' (nonWs_false_ws w hw) (by decide))]
                simp [unixPairAt, hw]
          · exact unixPairAt_false_of_ne c _ hcc
        rw [hpair, ih rest hrl hcrest]
        rfl

/-- Pass 4 preserves the absence of Unix pairs. -/
theorem removeLineCol_noUnixPath (l : List Char) (h : noUnixPath l = true) :
    noUnixPath (removeLineCol l) = true :=
  removeLineColAux_noUnixPath l.length l le_rfl h

/-- `noUnixPath` is closed under prefixes. -/
theorem noUnixPath_append_left (p t : List Char)
    (h : noUnixPath (p ++ t) = true) : noUnixPath p = true := by
  induction p with
  | nil => rfl
  | cons c p' ih =>
    rw [List.cons_append] at h
    rw [noUnixPath_cons]
    have htail := ih (noUnixPath_tail _ _ h)
    have hpair : unixPairAt (c :: p') = false := by
      cases p' with
      | nil => simp [unixPairAt]
      | cons d p'' =>
        have := noUnixPath_head c _ h
        simpa [unixPairAt] using this
    rw [hpair, htail]
    rfl

/-- Trimming preserves the absence of Unix pairs. -/
theorem jsTrimChars_noUnixPath (l : List Char) (h : noUnixPath l = true) :
    noUnixPath (jsTrimChars l) = true := by
  unfold jsTrimChars
  have hAclean : noUnixPath (l.dropWhile jsWhitespace) = true :=
    noUnixPath_of_suffix l _ (List.dropWhile_suffix _) h
  have hsplit : l.dropWhile jsWhitespace =
      ((l.dropWhile jsWhitespace).reverse.dropWhile jsWhitespace).reverse ++
      ((l.dropWhile jsWhitespace).reverse.takeWhile jsWhitespace).reverse := by
    conv_lhs => rw [← List.reverse_reverse (l.dropWhile jsWhitespace),
      ← List.takeWhile_append_dropWhile (p := jsWhitespace)
        (l := (l.dropWhile jsWhitespace).reverse)]
    rw [List.reverse_append]
  rw [hsplit] at hAclean
  exact noUnixPath_append_left _ _ hAclean

/-- Pass 3 only deletes characters (length-bounded form). -/
theorem stripAtAux_sublist :
    ∀ (n : Nat) (l : List Char), l.length ≤ n → ∀ st : AtState,
      List.Sublist (stripAtAux st l) l := by
  intro n
  induction n with
  | zero =>
    intro l hl st
    have hnil : l = [] := List.eq_nil_of_length_eq_zero (Nat.le_zero.mp hl)
    subst hnil
    cases st <;> exact List.Sublist.refl []
  | succ n ih =>
    intro l hl st
    cases l with
    | nil => cases st <;> exact List.Sublist.refl []
    | cons c rest =>
      have hrl : rest.length ≤ n := by simp at hl; omega
      cases st with
      | wsRun =>
        by_cases hws : jsWhitespace c = true
        · rw [show stripAtAux .wsRun (c :: rest) = stripAtAux .wsRun rest
              from by simp [stripAtAux, hws]]
          exact (ih rest hrl .wsRun).trans (List.sublist_cons_self c rest)
        · rw [show stripAtAux .wsRun (c :: rest) = stripAtAux .lineRun rest
              from by simp [stripAtAux, hws]]
          exact (ih rest hrl .lineRun).trans (List.sublist_cons_self c rest)
      | lineRun =>
        by_cases hlt : isLineTerm c = true
        · rw [show stripAtAux .lineRun (c :: rest) =
              c :: stripAtAux (.scan false) rest from by
            simp [stripAtAux, hlt]]
          exact List.Sublist.cons₂ c (ih rest hrl (.scan false))
        · rw [show stripAtAux .lineRun (c :: rest) = stripAtAux .lineRun rest
              from by simp [stripAtAux, hlt]]
          exact (ih rest hrl .lineRun).trans (List.sublist_cons_self c rest)
      | scan w =>
        rcases rest with _ | ⟨c2, _ | ⟨c3, rest2⟩⟩
        · simp [stripAtAux]
        · rw [show stripAtAux (.scan w) [c, c2] =
              c :: stripAtAux (.scan (isWordChar c)) [c2] from by
            simp [stripAtAux]]
          exact List.Sublist.cons₂ c (ih [c2] (by simp at hl ⊢; omega) _)
        · by_cases hcond :
            (c = 'a' && c2 = 't' && !w && jsWhitespace c3) = true
          · rw [show stripAtAux (.scan w) (c :: c2 :: c3 :: rest2) =
                stripAtAux .wsRun (c3 :: rest2) from by
              simp [stripAtAux, hcond]]
            exact ((ih (c3 :: rest2) (by simp at hl ⊢; omega) .wsRun).trans
              (List.sublist_cons_self c2 (c3 :: rest2))).trans
              (List.sublist_cons_self c (c2 :: c3 :: rest2))
          · rw [show stripAtAux (.scan w) (c :: c2 :: c3 :: rest2) =
                c :: stripAtAux (.scan (isWordChar c)) (c2 :: c3 :: rest2)
                from by
              simp only [stripAtAux]
              rw [if_neg (by simpa using hcond)]]
            exact List.Sublist.cons₂ c
              (ih (c2 :: c3 :: rest2) (by simp at hl ⊢; omega) _)

/-- Pass 3 only deletes characters. -/
theorem stripAt_sublist (l : List Char) : List.Sublist (stripAt l) l :=
  stripAtAux_sublist l.length l le_rfl (.scan false)

/-- Pass 4 only deletes characters (fuelled form). -/
theorem removeLineColAux_sublist :
    ∀ (fuel : Nat) (l : List Char), l.length ≤ fuel →
      List.Sublist (removeLineColAux fuel l) l := by
  intro fuel
  induction fuel with
  | zero =>
    intro l hl
    have hnil : l = [] := List.eq_nil_of_length_eq_zero (Nat.le_zero.mp hl)
    subst hnil
    exact List.Sublist.refl []
  | succ n ih =>
    intro l hl
    cases l with
    | nil => exact List.Sublist.refl []
    | cons c rest =>
      have hrl : rest.length ≤ n := by simp at hl; omega
      by_cases hc : c = '('
      · subst hc
        cases hfl : findLazy rest with
        | some remainder =>
          rw [show removeLineColAux (n + 1) ('(' :: rest) =
              removeLineColAux n remainder from by
            simp [removeLineColAux, hfl]]
          obtain ⟨hs, hlen⟩ := findLazy_suffix rest remainder hfl
          exact ((ih remainder (by omega)).trans hs.sublist).trans
            (List.sublist_cons_self '(' rest)
        | none =>
          rw [show removeLineColAux (n + 1) ('(' :: rest) =
              '(' :: removeLineColAux n rest from by
            simp [removeLineColAux, hfl]]
          exact List.Sublist.cons₂ '(' (ih rest hrl)
      · rw [removeLineColAux_emit n c rest hc]
        exact List.Sublist.cons₂ c (ih rest hrl)

/-- Pass 4 only deletes characters. -/
theorem removeLineCol_sublist (l : List Char) : List.Sublist (removeLineCol l) l :=
  removeLineColAux_sublist l.length l le_rfl

/-- **C3 counterexample**: a lowercase-drive Windows absolute path is not
replaced — the message is returned verbatim, path included — and a Unix
path containing a space is only partially replaced, so "every Unix or
Windows absolute filesystem path substring is replaced by `[path]`"
fails as stated. -/
theorem sanitizeErrorMessage_path_counterexample :
    sanitizeErrorMessage (some "open c:\\Users\\bob failed") =
      "open c:\\Users\\bob failed" ∧
    occursIn "c:\\Users\\bob".toList
      (sanitizeErrorMessage (some "open c:\\Users\\bob failed")).toList =
      true ∧
    sanitizeErrorMessage (some "open /tmp/my file") = "open [path] file" := by
  refine ⟨by decide, by decide, by decide⟩

/-- **C3 amended**: the returned string is never empty, with
`An error occurred` when the message is absent, empty, or sanitizes to
the empty string, and otherwise the trimmed output of the four passes;
the final output contains no `/`-plus-non-whitespace (Unix-path-like)
pattern; after the two replacement passes no uppercase-drive Windows
path pattern (`[A-Z]:\`-plus-non-whitespace) remains; and the
stack-trace and line:column passes only delete characters. -/
theorem sanitizeErrorMessage_spec (message : Option String) :
    sanitizeErrorMessage message ≠ "" ∧
    (message = none → sanitizeErrorMessage message = "An error occurred") ∧
    (message = some "" → sanitizeErrorMessage message = "An error occurred") ∧
    (jsTrimChars (sanitizePasses (errMessageText message).toList) = [] →
      sanitizeErrorMessage message = "An error occurred") ∧
    (jsTrimChars (sanitizePasses (errMessageText message).toList) ≠ [] →
      sanitizeErrorMessage message =
        String.mk
          (jsTrimChars (sanitizePasses (errMessageText message).toList))) ∧
    noUnixPath (sanitizeErrorMessage message).toList = true ∧
    noWinPath (replaceWin (replaceUnix (errMessageText message).toList)) =
      true ∧
    (∀ m : List Char, List.Sublist (stripAt m) m) ∧
    (∀ m : List Char, List.Sublist (removeLineCol m) m) := by
  refine ⟨?_, ?_, ?_, ?_, ?_, ?_, replaceWin_noWinPath _, stripAt_sublist,
    removeLineCol_sublist⟩
  · simp only [sanitizeErrorMessage]
    by_cases h :
        jsTrimChars (sanitizePasses (errMessageText message).toList) = []
    · rw [if_pos h]; decide
    · rw [if_neg h]
      intro habs
      apply h
      have := congrArg String.data habs
      simpa using this
  · intro hm; subst hm; decide
  · intro hm; subst hm; decide
  · intro h
    simp only [sanitizeErrorMessage]
    rw [if_pos h]
  · intro h
    simp only [sanitizeErrorMessage]
    rw [if_neg h]
  · simp only [sanitizeErrorMessage]
    by_cases h :
        jsTrimChars (sanitizePasses (errMessageText message).toList) = []
    · rw [if_pos h]; decide
    · rw [if_neg h]
      have hbase := (replaceUnixAux_noUnixPath (errMessageText message).toList).1
      have hwin := (replaceWinAux_noUnixPath_aux
        (replaceUnix (errMessageText message).toList).length _ le_rfl hbase).1
      have hstrip := stripAt_noUnixPath _ hwin
      have hrem := removeLineCol_noUnixPath _ hstrip
      exact jsTrimChars_noUnixPath _ hrem

/-- Witness for `sanitizeErrorMessage_spec` at a concrete message with a
path, a stack location and a line:column reference. -/
theorem sanitizeErrorMessage_spec_witness :
    sanitizeErrorMessage (some "boom (a:1:2) at /etc/x") ≠ "" ∧
    sanitizeErrorMessage (some "boom (a:1:2) at /etc/x") =
      String.mk (jsTrimChars (sanitizePasses
        (errMessageText (some "boom (a:1:2) at /etc/x")).toList)) :=
  ⟨(sanitizeErrorMessage_spec (some "boom (a:1:2) at /etc/x")).1,
   (sanitizeErrorMessage_spec (some "boom (a:1:2) at /etc/x")).2.2.2.2.1
     (by decide)⟩

end SubagentGen
